import Mathlib

/-!
Shallow embedding of the sview client-side router.

Sources embedded here:
* `src/utils.ts` — path construction (`constructPath`), active-path matching
  (`isActive` / `compare`), route matching (`matchView`, `sortViews`,
  `getViewPriority`) and the dual-buffer reconciler (`calculateTree`);
* `src/create.svelte.ts` — the navigation controller (`onNavigate`,
  `navigate`, `cleanMountedComponents`) and its module-level state.

Modelling conventions:
* JS strings are Lean `String`s, but every operation the source performs on
  them (`split`, `slice`, `startsWith`, `endsWith`, `includes`, `join`,
  `replace`) is defined here over `String.data` so that proofs can work on
  `List Char` (all strings involved are ASCII, so `.length` agrees with the
  JS UTF-16 length).
* JS objects used as string-keyed records are insertion-ordered association
  lists (`ParamsMap`); property assignment keeps the insertion position of an
  existing key, as in JS.
* Svelte components are opaque references `Comp` compared by identity, which
  is how the source compares them (`!==`).
* `async`/`await` introduces no interleaving that the source itself does not
  check for explicitly, so `onNavigate` is embedded as a pure function over
  an oracle environment (`NavEnv`) supplying hook outcomes, the values the
  source reads from the browser, and the increments other navigations apply
  to the global ticket counter while this one is suspended.
* Functions that can throw a JS `TypeError` on malformed input return
  `Option`/an explicit error result.
-/

namespace SView

/-- JS `String.prototype.split` with a one-character separator, over char
lists: the (always nonempty) list of chunks of `l` delimited by `sep`. -/
def splitChars (sep : Char) : List Char → List (List Char)
  | [] => [[]]
  | c :: cs =>
    match splitChars sep cs with
    | [] => [[]]
    | h :: t => if c = sep then [] :: h :: t else (c :: h) :: t

/-- JS `s.split(sep)` for a one-character separator. -/
def jsSplit (sep : Char) (s : String) : List String :=
  (splitChars sep s.data).map String.mk

/-- JS `s.startsWith(t)`. -/
def jsStartsWith (s t : String) : Bool := t.data.isPrefixOf s.data

/-- JS `s.endsWith(t)`. -/
def jsEndsWith (s t : String) : Bool := t.data.isSuffixOf s.data

/-- JS `s.includes(c)` for a one-character needle. -/
def jsIncludesChar (s : String) (c : Char) : Bool := s.data.contains c

/-- JS `Array.prototype.join` on char lists: empty array gives `''`, a
singleton gives its element, otherwise the elements interleaved with the
separator. -/
def joinChars (sep : List Char) : List (List Char) → List Char
  | [] => []
  | [x] => x
  | x :: xs => x ++ sep ++ joinChars sep xs

/-- JS `parts.join(sep)`. -/
def jsJoin (sep : String) (parts : List String) : String :=
  String.mk (joinChars sep.data (parts.map String.data))

/-- JS `s.slice(n)` (ASCII strings). -/
def jsDrop (s : String) (n : Nat) : String := String.mk (s.data.drop n)

/-- JS `s.slice(1, -1)`. -/
def jsDropBoth (s : String) : String := String.mk ((s.data.drop 1).dropLast)

/-- JS `s.slice(0, -1)`. -/
def jsDropLast (s : String) : String := String.mk s.data.dropLast

/-- JS `s.length` (ASCII strings). -/
def jsLength (s : String) : Nat := s.data.length

/-- JS `s.replace(pat, repl)` with a plain-string pattern: replaces the first
occurrence only, returns `s` unchanged when `pat` does not occur. -/
def replaceFirstL (pat repl : List Char) : List Char → List Char
  | [] => if pat.isPrefixOf ([] : List Char) then repl else []
  | c :: cs =>
    if pat.isPrefixOf (c :: cs) then repl ++ (c :: cs).drop pat.length
    else c :: replaceFirstL pat repl cs

/-- JS `s.replace(pat, repl)` (first occurrence only). -/
def jsReplaceFirst (pat repl s : String) : String :=
  String.mk (replaceFirstL pat.data repl.data s.data)

/-- A JS object used as a string-keyed record (the router's `params`),
modelled as an insertion-ordered association list. Values are
`Option String` because `matchView` can bind a param to JS `undefined`
(when a `:` pattern segment has no corresponding path segment). -/
abbrev ParamsMap := List (String × Option String)

/-- JS property assignment `obj[k] = v`: updates the value in place (keeping
the key's insertion position) when the key already exists, appends
otherwise. -/
def objSet (m : ParamsMap) (k : String) (v : Option String) : ParamsMap :=
  if m.any (fun kv => kv.1 == k) then
    m.map (fun kv => if kv.1 == k then (k, v) else kv)
  else m ++ [(k, v)]

/-- JS object spread `{ ...a, ...b }`: keys of `a` in order (values
overridden by `b` where both bind), followed by the keys only `b` binds, in
`b`'s order. -/
def spreadMerge (a b : ParamsMap) : ParamsMap :=
  b.foldl (fun acc kv => objSet acc kv.1 kv.2) a

/-- The key list of a params record (JS `Object.keys`). -/
def pKeys (m : ParamsMap) : List String := m.map Prod.fst

/-- `src/utils.ts` `getViewPriority`: priority class of a route-table key as
implemented — root `""`/`"/"` is 1, a key starting with `*` is 4, a key
containing `:` anywhere is 3, everything else (including `(*name)` keys,
whose parentheses are not stripped) is 2. -/
def getViewPriority (view : String) : Nat :=
  if view = "" ∨ view = "/" then 1
  else if jsStartsWith view "*" then 4
  else if jsIncludesChar view ':' then 3
  else 2

/-- Stable insertion of `x` into `l` ordered by `pri`: `x` goes before the
first element whose priority is not smaller. Folding this from the right is
the unique stable sort by `pri`, which is what ES2023 specifies for
`Array.prototype.toSorted` with the comparator `(a, b) => pri a - pri b`. -/
def insertByPri (pri : String → Nat) (x : String) : List String → List String
  | [] => [x]
  | y :: ys => if pri y < pri x then y :: insertByPri pri x ys else x :: y :: ys

/-- `src/utils.ts` `sortViews`: the candidate keys sorted stably by
`getViewPriority` (JS `views.toSorted((a, b) => getViewPriority a -
getViewPriority b)`). -/
def sortViews (views : List String) : List String :=
  views.foldr (insertByPri getViewPriority) []

/-- Modelled from the spec wording (for claim C6 only): strip a `(...)`
wrapper from a key before classifying it. -/
def stripParens (s : String) : String :=
  if jsStartsWith s "(" && jsEndsWith s ")" then jsDropBoth s else s

/-- Modelled from the spec wording (for claim C6 only): the four-tier
priority with the classification applied to every pattern-key shape of the
grammar, a `(...)`-wrapped segment being classified by its content. -/
def specViewPriority (view : String) : Nat := getViewPriority (stripParens view)

/-- Modelled from the spec wording (for claim C6 only): the stable sort by
the spec-side classification. -/
def specSortViews (views : List String) : List String :=
  views.foldr (insertByPri specViewPriority) []

/-- An opaque Svelte component reference; the source compares components
with JS `!==`, i.e. by identity. -/
structure Comp where
  id : Nat
deriving DecidableEq

/-- The JS value held in a tree slot's `params` property: `undefined` for a
slot built from a plain component; `false` for a slot built from a
`[component, opts]` pair whose opts lack a `params` field (the source stores
the result of `'params' in item[1] && Object.fromEntries(...)`); or an
object. An object carries an allocation id — modelling JS object identity,
which is what `calculateTree`'s `!==` compares — plus its entries. -/
inductive JsVal where
  | undef
  | fls
  | obj (id : Nat) (entries : List (String × Option String))
deriving DecidableEq

/-- One slot of a tree buffer: `{ C, key, params? }`. -/
structure Slot where
  C : Comp
  key : Nat
  params : JsVal
deriving DecidableEq

/-- `ComponentTree['value']` from `src/utils.ts`: two buffers plus the
equality index (which the source initialises to `-1` inside
`calculateTree`, so it is an integer). -/
structure TreeVal where
  a : List Slot
  b : List Slot
  eq : Int
deriving DecidableEq

/-- A transitional cycle value. `cycle.split('')` in `calculateTree` names
the FIRST letter `afterCycle` (the buffer built from `next`) and the SECOND
letter `beforeCycle` (the buffer copied from `prev`). -/
inductive Cycle2 where
  | ab
  | ba
deriving DecidableEq

/-- An element of `calculateTree`'s `next` list (a resolved view component):
either a plain component or a `[component, opts]` pair. -/
inductive NextItem where
  | plain (c : Comp)
  | withOpts (c : Comp) (submodule : Option String) (paramNames : Option (List String))
deriving DecidableEq

/-- JS `params[k]` on a params record: `undefined` when the key is absent. -/
def paramsGet (m : ParamsMap) (k : String) : Option String :=
  (List.lookup k m).getD none

/-- The buffer `calculateTree` builds from `next` (named by the first letter
of the cycle string, `afterCycle` in the source). -/
def incomingOf (t : TreeVal) : Cycle2 → List Slot
  | .ab => t.a
  | .ba => t.b

/-- The buffer `calculateTree` copies from `prev` (named by the second
letter of the cycle string, `beforeCycle` in the source). -/
def outgoingOf (t : TreeVal) : Cycle2 → List Slot
  | .ab => t.b
  | .ba => t.a

/-- One slot of the incoming buffer — the body of the `next.map` callback in
`calculateTree`. The key is inherited positionally from `keys`
(`keys[idx] ?? 0`), and the `params` property mirrors
`'params' in item[1] && Object.fromEntries(item[1].params.map(param =>
[param, params[param]]))`; `freshBase + idx` models the identity of the
object freshly allocated by `Object.fromEntries`. -/
def buildSlot (keys : List Nat) (params : ParamsMap) (freshBase idx : Nat) :
    NextItem → Slot
  | .plain c => { C := c, key := keys.getD idx 0, params := .undef }
  | .withOpts c _ pnames =>
    { C := c, key := keys.getD idx 0,
      params := match pnames with
        | none => .fls
        | some names =>
          .obj (freshBase + idx) (names.map (fun p => (p, paramsGet params p))) }

/-- `next.map((item, idx) => ...)` with its running index made explicit. -/
def buildSlots (keys : List Nat) (params : ParamsMap) (freshBase : Nat) :
    Nat → List NextItem → List Slot
  | _, [] => []
  | idx, item :: rest =>
    buildSlot keys params freshBase idx item :: buildSlots keys params freshBase (idx + 1) rest

/-- The first position (below `min` of the lengths) where the two buffers
differ in component reference or in params identity — the position at which
`calculateTree`'s first `while` loop stops with a difference. -/
def firstDiffIdx : List Slot → List Slot → Option Nat
  | bs, la =>
    match bs, la with
    | b :: bs', x :: la' =>
      if b.C ≠ x.C ∨ b.params ≠ x.params then some 0
      else (firstDiffIdx bs' la').map (· + 1)
    | _, _ => none

/-- Increment the key of every slot whose position is `≥ start` — the net
effect of `calculateTree`'s key bumps. -/
def bumpFrom (start : Nat) : Nat → List Slot → List Slot
  | _, [] => []
  | idx, s :: rest =>
    (if start ≤ idx then { s with key := s.key + 1 } else s) :: bumpFrom start (idx + 1) rest

/-- `src/utils.ts` `calculateTree`. The two `while` loops of the source
amount to the following: with `max = Math.min(t.a.length, t.b.length)`, let
`d` be the first position `< max` where the buffers differ in component
reference or params identity; the first loop sets `eq` to each equal
position scanned (leaving `eq = d - 1`, or `max - 1` when no scanned
position differs) and the two loops together increment the key of every
incoming-buffer slot at position `≥ d` (resp. `≥ max`) exactly once.
`freshBase` models the identities of freshly allocated params objects. The
write the source does into the global `mountedComponents` registry is
modelled separately by `calculateTreeMounted`. -/
def calculateTree (prev : TreeVal) (next : List NextItem) (cycle : Cycle2)
    (params : ParamsMap) (freshBase : Nat) : TreeVal :=
  let beforeBuf := outgoingOf prev cycle
  let keys := beforeBuf.map Slot.key
  let after0 := buildSlots keys params freshBase 0 next
  let maxc := min beforeBuf.length after0.length
  let bumpStart := (firstDiffIdx beforeBuf after0).getD maxc
  let afterBuf := bumpFrom bumpStart 0 after0
  let eqv : Int := (bumpStart : Int) - 1
  match cycle with
  | .ab => { a := afterBuf, b := beforeBuf, eq := eqv }
  | .ba => { a := beforeBuf, b := afterBuf, eq := eqv }

/-- The entries `calculateTree` registers in the global `mountedComponents`
registry: one `(depth, key)` per incoming-buffer slot
(`t[afterCycle].forEach(({key}, idx) => mountedComponents[idx + ' ' + key] = ...)`). -/
def calculateTreeMounted (t : TreeVal) (cycle : Cycle2) : List (Nat × Nat) :=
  (incomingOf t cycle).mapIdx (fun idx s => (idx, s.key))

/-- The module-level initial value of `componentTree` in
`src/create.svelte.ts` (line 20): `value: { a: [], b: [], eq: 0 }`. -/
def initialComponentTree : TreeVal := { a := [], b := [], eq := 0 }

/-- Concrete opaque components used by the concrete scenarios. -/
def compX : Comp := ⟨0⟩

/-- Second concrete component. -/
def compY : Comp := ⟨1⟩

/-- Third concrete component. -/
def compZ : Comp := ⟨2⟩

/-- A value of the route table object: a view component, a
`[component, { submodule?, params? }]` pair, a nested table, or the hooks
object stored under the reserved `hooks` key (a layout under the reserved
`layout` key has component shape, so it needs no constructor of its own).
A `Hooks` record is opaque here — identified by an id whose per-phase
outcomes the controller's oracle environment supplies. -/
inductive Entry where
  | comp (c : Comp)
  | arr (c : Comp) (submodule : Option String) (paramNames : Option (List String))
  | nested (vs : List (String × Entry))
  | hooksV (id : Nat)

/-- A route table (`Views` in `src/utils.ts`): a JS object, i.e. an
insertion-ordered association list whose key order is `Object.keys` order. -/
abbrev ViewsT := List (String × Entry)

/-- The record `matchView` returns. (`matched` is the source's `match`,
which is a reserved word here.) -/
structure MatchOut where
  matched : Option Entry
  layouts : List Entry
  hooks : List Nat
  params : ParamsMap
  breakFromLayouts : Bool

/-- The four accumulator variables of `matchView`'s candidate loop, shared
across candidates (the source never resets them between candidates). -/
structure ScanSt where
  params : ParamsMap
  layouts : List Entry
  hooks : List Nat
  breakFromLayouts : Bool

/-- Outcome of scanning one candidate: `next` — the inner loop broke or ran
off its end, try the next candidate (keeping the accumulators); `done` —
`break outer`; `err` — a JS TypeError was thrown. -/
inductive SegRes where
  | next (st : ScanSt)
  | done (st : ScanSt) (m : Option Entry)
  | err

/-- `'layout' in views && views.layout` followed by `layouts.push(...)`. -/
def pushLayoutIf (views : ViewsT) (layouts : List Entry) : List Entry :=
  match List.lookup "layout" views with
  | some l => layouts ++ [l]
  | none => layouts

/-- `'hooks' in views && views.hooks` followed by `hooks.push(views.hooks)`:
the id of this level's hooks object, if any. -/
def hooksIdsOf (views : ViewsT) : List Nat :=
  match List.lookup "hooks" views with
  | some (.hooksV i) => [i]
  | _ => []

/-- The last-segment block of `matchView`'s candidate scan (from
`const viewMatch = views['/' + viewParts.join('/')]` to the end of the loop
body): push this level's layout (unless the just-scanned segment was
parenthesised) and hooks, then accept the candidate (component value with
equal segment counts, `break outer`), reject it (component value, length
mismatch — the source's `continue` runs the loop off its end), or recurse
into a nested table and merge. A `none` lookup means the source calls
`matchView(nestedPathname, undefined)`, which throws a TypeError at
`Object.keys(undefined)` (`.err`). A hooks object as the value makes the
source recurse into it; its keys are hook-callback names, which we assume
never equal a path segment, so that call returns no match and empty
accumulators and the merge leaves the state unchanged (`.done st1 none`). -/
def lastSegBlock (recurse : String → ViewsT → Option MatchOut) (views : ViewsT)
    (pathParts viewParts : List String) (index : Nat) (st : ScanSt) : SegRes :=
  let viewMatch := List.lookup ("/" ++ jsJoin "/" viewParts) views
  let st1 : ScanSt :=
    { st with
      layouts := if !st.breakFromLayouts then pushLayoutIf views st.layouts else st.layouts,
      hooks := st.hooks ++ hooksIdsOf views }
  match viewMatch with
  | some (.comp c) =>
    if viewParts.length = pathParts.length then .done st1 (some (.comp c)) else .next st1
  | some (.arr c sub pn) =>
    if viewParts.length = pathParts.length then .done st1 (some (.arr c sub pn)) else .next st1
  | some (.nested vs) =>
    match recurse ("/" ++ jsJoin "/" (pathParts.drop (index + 1))) vs with
    | none => .err
    | some r =>
      .done { st1 with
          params := spreadMerge st1.params r.params,
          hooks := st1.hooks ++ r.hooks,
          layouts := if r.breakFromLayouts then [] else st1.layouts ++ r.layouts }
        r.matched
  | some (.hooksV _) => .done st1 none
  | none => .err

/-- One candidate's segment scan — the body of `matchView`'s inner
`for (let [index, viewPart] of viewParts.entries())` loop, from segment
`index` on. `rest` is `viewParts.drop index`, made a separate argument so
the recursion is structural; `recurse` is the recursive `matchView` call
used for nested tables. Each iteration REASSIGNS `breakFromLayouts` from the
current segment before anything else, exactly as the source does. -/
def scanSegs (recurse : String → ViewsT → Option MatchOut) (views : ViewsT)
    (pathParts viewParts : List String) :
    List String → Nat → ScanSt → SegRes
  | [], _, st => .next st
  | viewPart :: rest, index, st =>
    let bfl := jsStartsWith viewPart "(" && jsEndsWith viewPart ")"
    let vp := if bfl then jsDropBoth viewPart else viewPart
    let st1 : ScanSt := { st with breakFromLayouts := bfl }
    let pathPart := pathParts.get? index
    if jsStartsWith vp ":" then
      let st2 := { st1 with params := objSet st1.params (jsDrop vp 1) pathPart }
      if index ≠ viewParts.length - 1 then
        scanSegs recurse views pathParts viewParts rest (index + 1) st2
      else lastSegBlock recurse views pathParts viewParts index st2
    else if jsStartsWith vp "*" then
      let param := jsDrop vp 1
      let st2 := if param ≠ "" then
          { st1 with params := objSet st1.params param (some (jsJoin "/" (pathParts.drop index))) }
        else st1
      let st3 := if bfl then st2 else { st2 with layouts := pushLayoutIf views st2.layouts }
      let resolvedPath := (if index ≠ 0 then "/" else "") ++ jsJoin "/" viewParts
      .done st3 (List.lookup resolvedPath views)
    else if some vp ≠ pathPart then .next st1
    else if index ≠ viewParts.length - 1 then
      scanSegs recurse views pathParts viewParts rest (index + 1) st1
    else lastSegBlock recurse views pathParts viewParts index st1

/-- The outer `for (const view of allViews)` loop of `matchView`: scan the
candidates in priority order, threading the shared accumulators across
candidates; the first candidate that breaks the outer loop determines the
result. -/
def scanCands (recurse : String → ViewsT → Option MatchOut) (views : ViewsT)
    (pathParts : List String) : List String → ScanSt → Option MatchOut
  | [], st =>
    some { matched := none, layouts := st.layouts, hooks := st.hooks,
           params := st.params, breakFromLayouts := st.breakFromLayouts }
  | view :: restViews, st =>
    let viewParts0 := jsSplit '/' view
    let viewParts := if viewParts0.head? = some "" then viewParts0.drop 1 else viewParts0
    match scanSegs recurse views pathParts viewParts viewParts 0 st with
    | .next st' => scanCands recurse views pathParts restViews st'
    | .done st' m =>
      some { matched := m, layouts := st'.layouts, hooks := st'.hooks,
             params := st'.params, breakFromLayouts := st'.breakFromLayouts }
    | .err => none

/-- `src/utils.ts` `matchView`, with explicit recursion fuel (the recursion
descends only into strictly nested tables, so any fuel exceeding the nesting
depth computes the function's value; `matchView` below supplies one).
`none` models a thrown TypeError. -/
def matchViewF : Nat → String → ViewsT → Option MatchOut
  | 0, _, _ => none
  | fuel + 1, pathname, views =>
    let pathname1 := if jsLength pathname > 1 && jsEndsWith pathname "/"
      then jsDropLast pathname else pathname
    let pathParts := (jsSplit '/' pathname1).drop 1
    let allViews := sortViews (views.map Prod.fst)
    scanCands (matchViewF fuel) views pathParts allViews
      { params := [], layouts := [], hooks := [], breakFromLayouts := false }

mutual

/-- Nesting-depth bound of a table entry; used only to pick sufficient fuel. -/
def entryFuel : Entry → Nat
  | .nested vs => viewsFuelL vs + 1
  | _ => 0

/-- Nesting-depth bound of a table. -/
def viewsFuelL : List (String × Entry) → Nat
  | [] => 0
  | (_, e) :: rest => max (entryFuel e) (viewsFuelL rest)

end

/-- `matchView(pathname, views)`. -/
def matchView (pathname : String) (views : ViewsT) : Option MatchOut :=
  matchViewF (viewsFuelL views + 1) pathname views

/-- JS string coercion of a possibly-`undefined` replacement value. -/
def jsCoerceStr : Option String → String
  | some s => s
  | none => "undefined"

/-- `src/utils.ts` `constructPath` (the public `p`): for each key of
`params`, in insertion order, replace the FIRST occurrence of `:key`; the
`if (!params) return path` guard corresponds to `none`. -/
def constructPath (path : String) (params : Option ParamsMap) : String :=
  match params with
  | none => path
  | some ps =>
    ps.foldl (fun result kv => jsReplaceFirst (":" ++ kv.1) (jsCoerceStr kv.2) result) path

/-- The fallback loop of `compare`: iterate over the PATTERN's segments
(`pathParts`) with their index; skip the position when the CURRENT
pathname's segment at that index starts with `:`; otherwise return the
single comparison `compareFn pathPart viewPart` immediately. Falling off the
loop returns `false`. `none` models the TypeError the source throws when
`viewParts[index]` is `undefined` (`viewPart!.startsWith` on `undefined`). -/
def compareLoop (compareFn : String → String → Bool) (viewParts : List String) :
    List String → Nat → Option Bool
  | [], _ => some false
  | pathPart :: rest, index =>
    match viewParts.get? index with
    | none => none
    | some viewPart =>
      if jsStartsWith viewPart ":" then compareLoop compareFn viewParts rest (index + 1)
      else some (compareFn pathPart viewPart)

/-- `src/utils.ts` `compare`, the core of `isActive`; `cur` is the ambient
`location.pathname` the source reads from the browser. When the pattern has
no `:` the params argument is ignored entirely; when it has one and params
were passed (any object is truthy, even empty), substitute-and-compare;
otherwise the fallback loop. -/
def compare (compareFn : String → String → Bool) (pathname : String)
    (params : Option ParamsMap) (cur : String) : Option Bool :=
  if ¬ jsIncludesChar pathname ':' then some (compareFn cur pathname)
  else
    match params with
    | some ps => some (compareFn cur (constructPath pathname (some ps)))
    | none =>
      let pathParts := (jsSplit '/' pathname).drop 1
      let viewParts := (jsSplit '/' cur).drop 1
      compareLoop compareFn viewParts pathParts 0

/-- `isActive(pathname, params?)` (absolute equality), current pathname made
explicit. -/
def isActive (pathname : String) (params : Option ParamsMap) (cur : String) : Option Bool :=
  compare (fun a b => a == b) pathname params cur

/-- `isActive.startsWith(pathname, params?)` (prefix comparison: note the
source's fallback loop calls `compareFn(pathPart, viewPart)`, i.e.
PATTERN-segment`.startsWith(`CURRENT-segment`)`). -/
def isActiveStarts (pathname : String) (params : Option ParamsMap) (cur : String) : Option Bool :=
  compare (fun a b => jsStartsWith a b) pathname params cur

/-- Modelled from the spec wording (for claim C8 only): the claimed
semantics of `isActive` — with params, substitute into the pattern and
compare verbatim; without, compare segment-by-segment with every
`:`-prefixed PATTERN segment matching any single current segment. -/
def isActiveSpec (pathname : String) (params : Option ParamsMap) (cur : String) : Bool :=
  match params with
  | some ps => cur == constructPath pathname (some ps)
  | none =>
    let pathParts := (jsSplit '/' pathname).drop 1
    let viewParts := (jsSplit '/' cur).drop 1
    pathParts.length == viewParts.length
      && (List.zip pathParts viewParts).all (fun pv => jsStartsWith pv.1 ":" || pv.1 == pv.2)

/-- The navigation lifecycle phase (`phase.value`). -/
inductive Phase where
  | idle
  | beforeLoad
  | duringLoad
  | duringRender
  | afterRender
deriving DecidableEq

/-- The cycle value (`cycle.value`): stable `a`/`b` or transitional. -/
inductive CycleV where
  | a
  | b
  | ab
  | ba
deriving DecidableEq

/-- The location snapshot (`location` in `src/create.svelte.ts`). -/
structure LocationV where
  pathname : String
  search : String
  state : Option String
  hash : String
deriving DecidableEq

/-- The `scrollToTop` navigate option: absent, `false`, or a scroll
behavior string. -/
inductive ScrollOpt where
  | unset
  | off
  | behavior (s : String)
deriving DecidableEq

/-- `NavigateOptions` (the fields `onNavigate` reads; the declared `hooks?`
option is never read by the source). -/
structure NavOptions where
  hash : Option String := none
  replace : Bool := false
  scrollToTop : ScrollOpt := .unset
  search : Option String := none
  state : Option String := none
  bypass : Bool := false

/-- The module-level mutable state of `src/create.svelte.ts`: the route
table, `componentTree.value`, `cycle.value`, `params.value`, `phase.value`,
the `location` snapshot, `isRendering`, the global ticket counter
`navigationIndex` and `pendingNavigationIndex`, `firstBoot`, the
`mountedComponents` registry (keys parsed into `(depth, key)` pairs), and
`base.name`. `allocCounter` models the supply of fresh JS object
identities for `calculateTree`. -/
structure CtrlState where
  views : ViewsT
  tree : TreeVal
  cycle : CycleV
  params : ParamsMap
  phase : Phase
  loc : LocationV
  isRendering : Bool
  navigationIndex : Nat
  pendingNavigationIndex : Nat
  firstBoot : Bool
  mounted : List (Nat × Nat)
  baseName : Option String
  allocCounter : Nat

/-- Observable browser-facing effects of a navigation, in order. -/
inductive Effect where
  | hookCall (ph : Phase) (id : Nat)
  | histCommit (replace : Bool) (target : String) (state : Option String)
  | histGo (delta : Int)
  | scrolled (behavior : ScrollOpt)
  | searchSynced
deriving DecidableEq

/-- How `onNavigate` finished: normally, or by one of its `throw`
statements (empty table, render in progress), or by a TypeError escaping
`matchView`. -/
inductive NavResult where
  | ok
  | errEmptyViews
  | errRendering
  | errMatch
deriving DecidableEq

/-- Outcome of awaiting one user hook: resolved or threw/rejected. -/
inductive HookOutcome where
  | ok
  | err
deriving DecidableEq

/-- The oracle environment for one `onNavigate` run: what the browser
globals hold, the outcome of each hook (hooks are modelled as returning or
throwing, without mutating controller state themselves), the results of the
source's `new Error().stack.includes(...)` probes, and the increments that
re-entrant navigations apply to the global ticket counter while this run is
suspended at its `beforeLoad`/`duringLoad` hook batches. -/
structure NavEnv where
  globalPathname : String
  updatedLoc : LocationV
  beforeOutcome : Nat → HookOutcome
  duringOutcome : Nat → HookOutcome
  renderOutcome : Nat → HookOutcome
  afterOutcome : Nat → HookOutcome
  fromBeforeLoadHook : Bool
  fromDuringLoadHook : Bool
  bumpBefore : Nat
  bumpDuring : Nat

/-- One awaited hook batch (`for (const { beforeLoad } of hooks)` and the
`duringLoad` analogue): before each call, `pendingNavigationIndex` is set to
the current ticket; the first hook that throws is caught and aborts the
loop. Returns the final `pendingNavigationIndex`, whether a hook threw, and
the calls made. -/
def runHooks (out : Nat → HookOutcome) (ph : Phase) (cur : Nat) :
    Nat → List Nat → Nat × Bool × List Effect
  | pending, [] => (pending, false, [])
  | _, h :: t =>
    match out h with
    | .err => (cur, true, [Effect.hookCall ph h])
    | .ok =>
      let r := runHooks out ph cur cur t
      (r.1, r.2.1, Effect.hookCall ph h :: r.2.2)

/-- `resolveViewComponent` on an already-concrete entry: lazy loading is
outside this model, so a component resolves to itself and an array pair to
the pair shape `calculateTree` consumes. (A nested table or hooks object in
the resolved list can only arise from a table that breaks the `Views` type —
wildcard keys and `layout` hold components there — and is out of scope.) -/
def toNextItem : Entry → NextItem
  | .comp c => .plain c
  | .arr c sub pn => .withOpts c sub pn
  | .nested _ => .plain ⟨0⟩
  | .hooksV _ => .plain ⟨0⟩

/-- `src/utils.ts` `join`: concatenates parts, prefixing a missing leading
slash and stripping a trailing one. -/
def jsJoinPaths (parts : List String) : String :=
  parts.foldl (fun result part =>
    let r1 := if jsStartsWith part "/" then result else result ++ "/"
    let p1 := if jsEndsWith part "/" then jsDropLast part else part
    r1 ++ p1) ""

/-- `Math.min(a[depth]?.key ?? Infinity, b[depth]?.key ?? Infinity)`:
`none` is Infinity. -/
def depthMinKey (t : TreeVal) (d : Nat) : Option Nat :=
  match (t.a.get? d).map Slot.key, (t.b.get? d).map Slot.key with
  | some x, some y => some (min x y)
  | some x, none => some x
  | none, some y => some y
  | none, none => none

/-- `cleanMountedComponents`: keep a registry entry unless its key is
behind the minimum live key at its depth. -/
def cleanMounted (t : TreeVal) (mounted : List (Nat × Nat)) : List (Nat × Nat) :=
  mounted.filter (fun dk =>
    match depthMinKey t dk.1 with
    | none => false
    | some m => ! decide (dk.2 < m))

/-- The history/location commit section of `onNavigate` (from `if (path)`
to the end): push/replace history when a nonempty path was supplied
(search/hash appended, base prefix re-applied), publish the new `params`
and location snapshot, sync the query cache, scroll unless suppressed; a
bypass navigation then goes straight to `idle` and registry cleanup, a
normal one runs the `duringRender` hooks, collapses the cycle
(`ba → b`, `ab → a`), runs the `afterRender` hooks, and returns to
`idle`. -/
def commitPhase (env : NavEnv) (opts : NavOptions) (path : Option String)
    (mv : MatchOut) (s : CtrlState) : CtrlState × List Effect × NavResult :=
  let commitEffs : List Effect :=
    match path with
    | some p =>
      if p == "" then []
      else
        let p1 := p ++ (match opts.search with | some x => x | none => "")
            ++ (match opts.hash with | some x => x | none => "")
        let target := match s.baseName with
          | some bn => jsJoinPaths [bn, p1]
          | none => p1
        [Effect.histCommit opts.replace target opts.state]
    | none => []
  let s1 := { s with params := mv.params, loc := env.updatedLoc }
  let scrollEffs : List Effect :=
    match opts.scrollToTop with
    | .off => []
    | sc => [Effect.scrolled sc]
  if opts.bypass then
    ({ s1 with phase := .idle, mounted := cleanMounted s1.tree s1.mounted },
      commitEffs ++ [Effect.searchSynced] ++ scrollEffs, .ok)
  else
    let effR := mv.hooks.map (Effect.hookCall .duringRender)
    let s2 := { s1 with cycle := if s1.cycle = CycleV.ba then CycleV.b else CycleV.a }
    let effA := mv.hooks.map (Effect.hookCall .afterRender)
    ({ s2 with phase := .idle, mounted := cleanMounted s2.tree s2.mounted },
      commitEffs ++ [Effect.searchSynced] ++ scrollEffs ++ effR ++ effA, .ok)

/-- The `duringLoad` section of `onNavigate`: run the hooks; on a hook
throw, roll back (`revertLoading`: restore the previous cycle and tree) and
return to `idle`; after the batch, the staleness re-check (ticket mismatch,
or the stack probe saying this completion comes from inside a `duringLoad`
hook with a stale pending ticket) also rolls back; otherwise commit. -/
def duringLoadPhase (env : NavEnv) (opts : NavOptions) (path : Option String)
    (mv : MatchOut) (currentNav : Nat) (prevCycle : CycleV) (prevTree : TreeVal)
    (s : CtrlState) : CtrlState × List Effect × NavResult :=
  let r2 := runHooks env.duringOutcome .duringLoad currentNav s.pendingNavigationIndex mv.hooks
  let s1 := { s with pendingNavigationIndex := r2.1 }
  if r2.2.1 then
    ({ s1 with cycle := prevCycle, tree := prevTree, phase := .idle }, r2.2.2, .ok)
  else
    let s2 := { s1 with navigationIndex := s1.navigationIndex + env.bumpDuring }
    if s2.navigationIndex ≠ currentNav
        ∨ (env.fromDuringLoadHook ∧ s2.pendingNavigationIndex + 1 ≠ currentNav) then
      ({ s2 with cycle := prevCycle, tree := prevTree, phase := .idle }, r2.2.2, .ok)
    else
      let r := commitPhase env opts path mv s2
      (r.1, r2.2.2 ++ r.2.1, r.2.2)

/-- The non-bypass part of `onNavigate` from `phase.value = 'beforeLoad'`:
run the `beforeLoad` hooks (a throw aborts with NO tree mutation, back to
`idle`); staleness check; resolve the layout chain plus match and
reconcile (`calculateTree`), registering the new incoming slots in the
registry; set the transitional cycle (`a → ba`, `b → ab`) and enter
`duringLoad`. -/
def beforeLoadPhase (env : NavEnv) (opts : NavOptions) (path : Option String)
    (mv : MatchOut) (currentNav : Nat) (s : CtrlState) :
    CtrlState × List Effect × NavResult :=
  let s1 := { s with phase := .beforeLoad }
  let r1 := runHooks env.beforeOutcome .beforeLoad currentNav s1.pendingNavigationIndex mv.hooks
  let s2 := { s1 with pendingNavigationIndex := r1.1 }
  if r1.2.1 then
    ({ s2 with phase := .idle }, r1.2.2, .ok)
  else
    let s3 := { s2 with navigationIndex := s2.navigationIndex + env.bumpBefore }
    if s3.navigationIndex ≠ currentNav
        ∨ (env.fromBeforeLoadHook ∧ s3.pendingNavigationIndex + 1 ≠ currentNav) then
      ({ s3 with phase := .idle }, r1.2.2, .ok)
    else
      let viewComponents := (match mv.matched with
        | some m => mv.layouts ++ [m]
        | none => mv.layouts).map toNextItem
      let nextCycle2 : Cycle2 := if s3.cycle = .a then .ba else .ab
      let prevTree := s3.tree
      let newTree := calculateTree s3.tree viewComponents nextCycle2 mv.params s3.allocCounter
      let s4 := { s3 with
        tree := newTree,
        cycle := if s3.cycle = .a then CycleV.ba else CycleV.ab,
        allocCounter := s3.allocCounter + viewComponents.length,
        mounted := s3.mounted ++ calculateTreeMounted newTree nextCycle2,
        phase := .duringLoad }
      let r := duringLoadPhase env opts path mv currentNav s3.cycle prevTree s4
      (r.1, r1.2.2 ++ r.2.1, r.2.2)

/-- `onNavigate` after its HMR/first-boot check: the two `throw`s (empty
table, render in progress), the transitional-cycle guard (an early `return`
BEFORE the bypass option is even read, so it rejects bypass navigations
too, and before the ticket increment), then ticket assignment, base-path
stripping, matching, and the bypass/non-bypass split. -/
def onNavigateChecks (env : NavEnv) (s : CtrlState) (path : Option String)
    (opts : NavOptions) : CtrlState × List Effect × NavResult :=
  if s.views.length = 0 then (s, [], .errEmptyViews)
  else if s.isRendering then (s, [], .errRendering)
  else if s.cycle = .ab ∨ s.cycle = .ba then (s, [], .ok)
  else
    let s1 := { s with navigationIndex := s.navigationIndex + 1 }
    let currentNav := s1.navigationIndex
    let matchPath0 := match path with
      | some p => if p == "" then env.globalPathname else p
      | none => env.globalPathname
    let matchPath := match s.baseName with
      | some bn =>
        if jsStartsWith matchPath0 bn then
          (if jsDrop matchPath0 (jsLength bn) == "" then "/"
           else jsDrop matchPath0 (jsLength bn))
        else matchPath0
      | none => matchPath0
    match matchView matchPath s.views with
    | none => (s1, [], .errMatch)
    | some mv =>
      if opts.bypass then commitPhase env opts path mv s1
      else beforeLoadPhase env opts path mv currentNav s1

/-- `src/create.svelte.ts` `onNavigate`: the HMR guard (no path supplied
and the location snapshot already agrees with the browser — pass through
once at first boot, otherwise return), then the checks and phases above. -/
def onNavigate (env : NavEnv) (s : CtrlState) (path : Option String)
    (opts : NavOptions) : CtrlState × List Effect × NavResult :=
  let pathFalsy := match path with
    | none => true
    | some p => p == ""
  if pathFalsy && (s.loc.pathname == env.globalPathname) then
    if s.firstBoot then onNavigateChecks env { s with firstBoot := false } path opts
    else (s, [], .ok)
  else onNavigateChecks env s path opts

/-- `src/create.svelte.ts` `navigate`: a numeric argument only calls
`history.go(delta)` and returns; a string argument delegates to
`onNavigate`. -/
def navigate (env : NavEnv) (s : CtrlState) (arg : Int ⊕ String)
    (opts : NavOptions) : CtrlState × List Effect × NavResult :=
  match arg with
  | .inl delta => (s, [Effect.histGo delta], .ok)
  | .inr p => onNavigate env s (some p) opts

/-- A concrete route table with a root view and a hooks entry, for the
controller scenarios. -/
def hookedViews : ViewsT := [("/", Entry.comp compX), ("hooks", Entry.hooksV 0)]

/-- A concrete controller state at rest on `/`. -/
def restState : CtrlState :=
  { views := hookedViews, tree := initialComponentTree, cycle := .a, params := [],
    phase := .idle, loc := ⟨"/", "", none, ""⟩, isRendering := false,
    navigationIndex := 0, pendingNavigationIndex := 0, firstBoot := true,
    mounted := [], baseName := none, allocCounter := 0 }

/-- The concrete state during an in-flight transition (`cycle = ab`). -/
def transitionalState : CtrlState :=
  { restState with cycle := .ab }

/-- An oracle environment whose hooks all succeed. -/
def quietEnv : NavEnv :=
  { globalPathname := "/", updatedLoc := ⟨"/", "", none, ""⟩,
    beforeOutcome := fun _ => .ok, duringOutcome := fun _ => .ok,
    renderOutcome := fun _ => .ok, afterOutcome := fun _ => .ok,
    fromBeforeLoadHook := false, fromDuringLoadHook := false,
    bumpBefore := 0, bumpDuring := 0 }

/-- An environment whose `beforeLoad` hooks throw. -/
def beforeErrEnv : NavEnv :=
  { quietEnv with beforeOutcome := fun _ => .err }

/-- An environment whose `duringLoad` hooks throw. -/
def duringErrEnv : NavEnv :=
  { quietEnv with duringOutcome := fun _ => .err }

/-- The param name one pattern segment binds when the scan examines it:
`x` for `:x` (or `(:x)`), `x` for a named wildcard `*x` (or `(*x)`),
nothing for a literal or a bare `*`. -/
def namedOfSeg (seg : String) : List String :=
  let s := stripParens seg
  if jsStartsWith s ":" then [jsDrop s 1]
  else if jsStartsWith s "*" then (if jsDrop s 1 ≠ "" then [jsDrop s 1] else [])
  else []

/-- Whether the scan treats a segment as a wildcard (and stops there):
after stripping, it does not start with `:` but starts with `*`. -/
def isWildSeg (seg : String) : Bool :=
  let s := stripParens seg
  !(jsStartsWith s ":") && jsStartsWith s "*"

/-- The param names bound while scanning a segment list, cut at the first
wildcard segment (inclusive), exactly as the scan stops there. -/
def namedTrunc : List String → List String
  | [] => []
  | seg :: rest =>
    if isWildSeg seg then namedOfSeg seg
    else namedOfSeg seg ++ namedTrunc rest

/-- All param names named by a winning chain of pattern keys (one segment
list per nested table level). -/
def namedChain (c : List (List String)) : List String := (c.map namedTrunc).flatten

/-- Instrumented scan outcome: like `SegRes` but a `done` additionally
carries the ghost chain of winning pattern keys (their shifted segment
lists), `none` when the break produced no winning candidate. -/
inductive SegResI where
  | next (st : ScanSt)
  | done (st : ScanSt) (m : Option Entry) (w : Option (List (List String)))
  | err

/-- Forget the ghost chain. -/
def eraseSegRes : SegResI → SegRes
  | .next st => .next st
  | .done st m _ => .done st m
  | .err => .err

/-- `lastSegBlock` with ghost instrumentation: identical control flow, plus
the winning chain — this level's segment list prepended to the nested
result's chain. -/
def lastSegBlockI (recurse : String → ViewsT → Option (MatchOut × Option (List (List String))))
    (views : ViewsT) (pathParts viewParts : List String) (index : Nat) (st : ScanSt) :
    SegResI :=
  let viewMatch := List.lookup ("/" ++ jsJoin "/" viewParts) views
  let st1 : ScanSt :=
    { st with
      layouts := if !st.breakFromLayouts then pushLayoutIf views st.layouts else st.layouts,
      hooks := st.hooks ++ hooksIdsOf views }
  match viewMatch with
  | some (.comp c) =>
    if viewParts.length = pathParts.length then .done st1 (some (.comp c)) (some [viewParts])
    else .next st1
  | some (.arr c sub pn) =>
    if viewParts.length = pathParts.length then .done st1 (some (.arr c sub pn)) (some [viewParts])
    else .next st1
  | some (.nested vs) =>
    match recurse ("/" ++ jsJoin "/" (pathParts.drop (index + 1))) vs with
    | none => .err
    | some (r, w') =>
      .done { st1 with
          params := spreadMerge st1.params r.params,
          hooks := st1.hooks ++ r.hooks,
          layouts := if r.breakFromLayouts then [] else st1.layouts ++ r.layouts }
        r.matched (some (viewParts :: w'.getD []))
  | some (.hooksV _) => .done st1 none none
  | none => .err

/-- `scanSegs` with ghost instrumentation (identical control flow). -/
def scanSegsI (recurse : String → ViewsT → Option (MatchOut × Option (List (List String))))
    (views : ViewsT) (pathParts viewParts : List String) :
    List String → Nat → ScanSt → SegResI
  | [], _, st => .next st
  | viewPart :: rest, index, st =>
    let bfl := jsStartsWith viewPart "(" && jsEndsWith viewPart ")"
    let vp := if bfl then jsDropBoth viewPart else viewPart
    let st1 : ScanSt := { st with breakFromLayouts := bfl }
    let pathPart := pathParts.get? index
    if jsStartsWith vp ":" then
      let st2 := { st1 with params := objSet st1.params (jsDrop vp 1) pathPart }
      if index ≠ viewParts.length - 1 then
        scanSegsI recurse views pathParts viewParts rest (index + 1) st2
      else lastSegBlockI recurse views pathParts viewParts index st2
    else if jsStartsWith vp "*" then
      let param := jsDrop vp 1
      let st2 := if param ≠ "" then
          { st1 with params := objSet st1.params param (some (jsJoin "/" (pathParts.drop index))) }
        else st1
      let st3 := if bfl then st2 else { st2 with layouts := pushLayoutIf views st2.layouts }
      let resolvedPath := (if index ≠ 0 then "/" else "") ++ jsJoin "/" viewParts
      .done st3 (List.lookup resolvedPath views) (some [viewParts])
    else if some vp ≠ pathPart then .next st1
    else if index ≠ viewParts.length - 1 then
      scanSegsI recurse views pathParts viewParts rest (index + 1) st1
    else lastSegBlockI recurse views pathParts viewParts index st1

/-- `scanCands` with ghost instrumentation. -/
def scanCandsI (recurse : String → ViewsT → Option (MatchOut × Option (List (List String))))
    (views : ViewsT) (pathParts : List String) :
    List String → ScanSt → Option (MatchOut × Option (List (List String)))
  | [], st =>
    some ({ matched := none, layouts := st.layouts, hooks := st.hooks,
            params := st.params, breakFromLayouts := st.breakFromLayouts }, none)
  | view :: restViews, st =>
    let viewParts0 := jsSplit '/' view
    let viewParts := if viewParts0.head? = some "" then viewParts0.drop 1 else viewParts0
    match scanSegsI recurse views pathParts viewParts viewParts 0 st with
    | .next st' => scanCandsI recurse views pathParts restViews st'
    | .done st' m w =>
      some ({ matched := m, layouts := st'.layouts, hooks := st'.hooks,
              params := st'.params, breakFromLayouts := st'.breakFromLayouts }, w)
    | .err => none

/-- `matchViewF` with ghost instrumentation. -/
def matchViewIF : Nat → String → ViewsT → Option (MatchOut × Option (List (List String)))
  | 0, _, _ => none
  | fuel + 1, pathname, views =>
    let pathname1 := if jsLength pathname > 1 && jsEndsWith pathname "/"
      then jsDropLast pathname else pathname
    let pathParts := (jsSplit '/' pathname1).drop 1
    let allViews := sortViews (views.map Prod.fst)
    scanCandsI (matchViewIF fuel) views pathParts allViews
      { params := [], layouts := [], hooks := [], breakFromLayouts := false }

/-- `matchView` with ghost instrumentation. -/
def matchViewI (pathname : String) (views : ViewsT) :
    Option (MatchOut × Option (List (List String))) :=
  matchViewIF (viewsFuelL views + 1) pathname views

-- ## Theorems

theorem mk_data (s : String) : String.mk s.data = s := rfl

theorem singleton_isPrefixOf (c : Char) (l : List Char) :
    List.isPrefixOf [c] l = (l.head? == some c) := by
  cases l <;> simp [List.isPrefixOf, eq_comm]

theorem isSuffixOf_singleton_append (c : Char) (l w : List Char) (hw : w ≠ [])
    (hnc : c ∉ w) : List.isSuffixOf [c] (l ++ w) = false := by
  have hrev : w.reverse ≠ [] := by simpa [List.reverse_eq_nil_iff] using hw
  rcases hr : w.reverse with _ | ⟨c', rest⟩
  · exact absurd hr hrev
  · have hc' : c' ∈ w := by
      rw [← List.mem_reverse, hr]
      simp
    have hne : c ≠ c' := fun h => hnc (h ▸ hc')
    have hdef : List.isSuffixOf [c] (l ++ w)
        = List.isPrefixOf [c] ((l ++ w).reverse) := rfl
    rw [hdef, List.reverse_append, hr]
    simp [List.isPrefixOf, hne]

theorem isSuffixOf_singleton_concat (c : Char) (l : List Char) :
    List.isSuffixOf [c] (l ++ [c]) = true := by
  have hdef : List.isSuffixOf [c] (l ++ [c])
      = List.isPrefixOf [c] ((l ++ [c]).reverse) := rfl
  rw [hdef, List.reverse_append]
  simp [List.isPrefixOf]

theorem jsStartsWith_eq_head (s t : String) (c : Char) (ht : t.data = [c]) :
    jsStartsWith s t = (s.data.head? == some c) := by
  rw [jsStartsWith, ht, singleton_isPrefixOf]

theorem jsStartsWith_false_of_not_mem (s t : String) (c : Char) (ht : t.data = [c])
    (h : c ∉ s.data) : jsStartsWith s t = false := by
  rw [jsStartsWith_eq_head s t c ht]
  cases hd : s.data with
  | nil => rfl
  | cons x xs =>
    have hx : x ∈ s.data := by
      rw [hd]
      simp
    have hxc : ¬ x = c := fun he => h (he ▸ hx)
    simp [hxc]

theorem jsEndsWith_false_of_append (s t : String) (c : Char) (ht : t.data = [c])
    (l w : List Char) (hs : s.data = l ++ w) (hw : w ≠ []) (hnc : c ∉ w) :
    jsEndsWith s t = false := by
  rw [jsEndsWith, ht, hs]
  exact isSuffixOf_singleton_append c l w hw hnc

theorem jsIncludesChar_false (s : String) (c : Char) (h : c ∉ s.data) :
    jsIncludesChar s c = false := by
  simp [jsIncludesChar, List.contains, List.elem_eq_mem, h]

theorem splitChars_ne_nil (sep : Char) (l : List Char) : splitChars sep l ≠ [] := by
  cases l with
  | nil => simp [splitChars]
  | cons c cs =>
    simp only [splitChars]
    split
    · simp
    · split <;> simp

theorem splitChars_sep_cons (sep : Char) (cs : List Char) :
    splitChars sep (sep :: cs) = [] :: splitChars sep cs := by
  simp only [splitChars]
  rcases h : splitChars sep cs with _ | ⟨hd, tl⟩
  · exact absurd h (splitChars_ne_nil sep cs)
  · simp

theorem splitChars_cons_ne (sep c : Char) (cs : List Char) (hne : c ≠ sep)
    (hd : List Char) (tl : List (List Char)) (h : splitChars sep cs = hd :: tl) :
    splitChars sep (c :: cs) = (c :: hd) :: tl := by
  simp only [splitChars, h]
  simp [hne]

theorem splitChars_no_sep (sep : Char) (l : List Char) (h : sep ∉ l) :
    splitChars sep l = [l] := by
  induction l with
  | nil => rfl
  | cons c cs ih =>
    have hc : c ≠ sep := fun he => h (he ▸ List.mem_cons_self c cs)
    have hcs : sep ∉ cs := fun hm => h (List.mem_cons_of_mem c hm)
    exact splitChars_cons_ne sep c cs hc cs [] (ih hcs)

theorem splitChars_append_sep (sep : Char) (l₁ l₂ : List Char) (h : sep ∉ l₁) :
    splitChars sep (l₁ ++ sep :: l₂) = l₁ :: splitChars sep l₂ := by
  induction l₁ with
  | nil => simpa using splitChars_sep_cons sep l₂
  | cons c cs ih =>
    have hc : c ≠ sep := fun he => h (he ▸ List.mem_cons_self c cs)
    have hcs : sep ∉ cs := fun hm => h (List.mem_cons_of_mem c hm)
    simpa using splitChars_cons_ne sep c (cs ++ sep :: l₂) hc cs (splitChars sep l₂) (ih hcs)

theorem jsSplit_split3 (g u : String) (hg : '/' ∉ g.data) (hu : '/' ∉ u.data) :
    jsSplit '/' ("/" ++ g ++ "/" ++ u) = ["", g, u] := by
  have hdata : ("/" ++ g ++ "/" ++ u).data = '/' :: (g.data ++ '/' :: u.data) := by
    simp [String.data_append]
  rw [jsSplit, hdata, splitChars_sep_cons,
    splitChars_append_sep '/' g.data u.data hg, splitChars_no_sep '/' u.data hu]
  simp [mk_data]

theorem jsSplit_split2 (u : String) (hu : '/' ∉ u.data) :
    jsSplit '/' ("/" ++ u) = ["", u] := by
  have hdata : ("/" ++ u).data = '/' :: u.data := by
    simp [String.data_append]
  rw [jsSplit, hdata, splitChars_sep_cons, splitChars_no_sep '/' u.data hu]
  simp [mk_data]

theorem getViewPriority_eq_two (s : String) (c0 : Char) (rest : List Char)
    (hdata : s.data = c0 :: rest) (hc0 : c0 ≠ '*')
    (hroot : ¬ (c0 = '/' ∧ rest = [])) (hcolon : ':' ∉ s.data) :
    getViewPriority s = 2 := by
  have hne1 : ¬ s = "" := by
    intro h
    rw [h] at hdata
    have hcast : ([] : List Char) = c0 :: rest := hdata
    simp at hcast
  have hne2 : ¬ s = "/" := by
    intro h
    rw [h] at hdata
    have hcast : (['/'] : List Char) = c0 :: rest := hdata
    have h1 : '/' = c0 := by injection hcast
    have h2 : ([] : List Char) = rest := by injection hcast
    exact hroot ⟨h1.symm, h2.symm⟩
  have hstar : jsStartsWith s "*" = false := by
    rw [jsStartsWith_eq_head s "*" '*' rfl, hdata]
    simp [hc0]
  have hcol : jsIncludesChar s ':' = false := jsIncludesChar_false s ':' hcolon
  simp [getViewPriority, hne1, hne2, hstar, hcol]

theorem insertByPri_perm (pri : String → Nat) (x : String) (l : List String) :
    (insertByPri pri x l).Perm (x :: l) := by
  induction l with
  | nil => simp [insertByPri]
  | cons y ys ih =>
    simp only [insertByPri]
    split
    · exact ((ih.cons y).trans (List.Perm.swap x y ys))
    · exact List.Perm.refl _

theorem sortViews_perm (l : List String) : (sortViews l).Perm l := by
  induction l with
  | nil => simp [sortViews]
  | cons x xs ih =>
    simpa [sortViews] using (insertByPri_perm getViewPriority x _).trans (ih.cons x)

theorem insertByPri_pairwise (pri : String → Nat) (x : String) (l : List String)
    (h : l.Pairwise (fun a b => pri a ≤ pri b)) :
    (insertByPri pri x l).Pairwise (fun a b => pri a ≤ pri b) := by
  induction l with
  | nil => simp [insertByPri]
  | cons y ys ih =>
    rcases List.pairwise_cons.mp h with ⟨hy, hys⟩
    simp only [insertByPri]
    split
    · refine List.pairwise_cons.mpr ⟨?_, ih hys⟩
      intro z hz
      have hz' : z ∈ x :: ys := (insertByPri_perm pri x ys).mem_iff.mp hz
      rcases List.mem_cons.mp hz' with rfl | hz''
      · omega
      · exact hy z hz''
    · refine List.pairwise_cons.mpr ⟨?_, h⟩
      intro z hz
      rcases List.mem_cons.mp hz with rfl | hz'
      · omega
      · exact le_trans (by omega) (hy z hz')

theorem insertByPri_filter_eq (pri : String → Nat) (x : String) (l : List String)
    (p : Nat) (hx : pri x = p) :
    (insertByPri pri x l).filter (fun y => pri y == p)
      = x :: l.filter (fun y => pri y == p) := by
  induction l with
  | nil => simp [insertByPri, List.filter_cons, hx]
  | cons y ys ih =>
    simp only [insertByPri]
    split
    · have hy : (pri y == p) = false := by
        have hne : pri y ≠ p := by omega
        simpa using hne
      simp [List.filter_cons, hy, ih]
    · simp [List.filter_cons, hx]

theorem insertByPri_filter_ne (pri : String → Nat) (x : String) (l : List String)
    (p : Nat) (hx : pri x ≠ p) :
    (insertByPri pri x l).filter (fun y => pri y == p)
      = l.filter (fun y => pri y == p) := by
  induction l with
  | nil => simp [insertByPri, List.filter_cons, hx]
  | cons y ys ih =>
    simp only [insertByPri]
    split
    · simp only [List.filter_cons, ih]
    · simp [List.filter_cons, hx]

/-- Claim C6 (amended): `sortViews` is the stable sort of the key list by
`getViewPriority` as implemented: the output is a permutation of the input,
ordered by nondecreasing priority, and within each priority class the
original declaration order of the keys is preserved. (The implemented
classification does not strip a `(...)` wrapper, so a `(*name)` key counts
as a static literal, priority 2 — see the counterexample.) -/
theorem sortViews_stable_by_getViewPriority (l : List String) :
    (sortViews l).Perm l
      ∧ (sortViews l).Pairwise (fun a b => getViewPriority a ≤ getViewPriority b)
      ∧ ∀ p : Nat, (sortViews l).filter (fun y => getViewPriority y == p)
          = l.filter (fun y => getViewPriority y == p) := by
  refine ⟨sortViews_perm l, ?_, ?_⟩
  · induction l with
    | nil => simp [sortViews]
    | cons x xs ih => exact insertByPri_pairwise _ x _ ih
  · intro p
    induction l with
    | nil => simp [sortViews]
    | cons x xs ih =>
      have hstep : sortViews (x :: xs) = insertByPri getViewPriority x (sortViews xs) := rfl
      rw [hstep, List.filter_cons]
      by_cases hx : getViewPriority x = p
      · rw [insertByPri_filter_eq _ x _ p hx, ih]
        simp [hx]
      · rw [insertByPri_filter_ne _ x _ p hx, ih]
        simp [hx]

/-- Claim C6, counterexample: the classification the sorter actually uses
does not apply to `(...)`-wrapped wildcard keys. `(*a)` is classified as a
static literal (priority 2), not as a wildcard (priority 4), so `sortViews`
leaves it in front of the static key `/b`, while a sorter using the spec's
classification would order `/b` first. -/
theorem sortViews_paren_wildcard_counterexample :
    sortViews ["(*a)", "/b"] = ["(*a)", "/b"]
      ∧ specSortViews ["(*a)", "/b"] = ["/b", "(*a)"]
      ∧ getViewPriority "(*a)" = 2 ∧ specViewPriority "(*a)" = 4 := by
  refine ⟨?_, ?_, ?_, ?_⟩ <;> decide

theorem buildSlots_length (keys : List Nat) (params : ParamsMap) (fb : Nat)
    (idx : Nat) (next : List NextItem) :
    (buildSlots keys params fb idx next).length = next.length := by
  induction next generalizing idx with
  | nil => rfl
  | cons item rest ih => simp [buildSlots, ih]

theorem bumpFrom_length (start idx : Nat) (l : List Slot) :
    (bumpFrom start idx l).length = l.length := by
  induction l generalizing idx with
  | nil => rfl
  | cons s rest ih => simp [bumpFrom, ih]

theorem firstDiffIdx_lt (lb la : List Slot) (d : Nat)
    (h : firstDiffIdx lb la = some d) : d < lb.length ∧ d < la.length := by
  induction lb generalizing la d with
  | nil => simp [firstDiffIdx] at h
  | cons b bs ih =>
    cases la with
    | nil => simp [firstDiffIdx] at h
    | cons x xs =>
      simp only [firstDiffIdx] at h
      split at h
      · cases h
        constructor <;> simp
      · rcases Option.map_eq_some'.mp h with ⟨d', hd', rfl⟩
        have := ih xs d' hd'
        constructor <;> simp <;> omega

theorem bumpStart_le (lb la : List Slot) :
    (firstDiffIdx lb la).getD (min lb.length la.length) ≤ min lb.length la.length := by
  cases h : firstDiffIdx lb la with
  | none => simp
  | some d =>
    have := firstDiffIdx_lt lb la d h
    simp only [Option.getD_some]
    omega

theorem buildSlots_key (keys : List Nat) (params : ParamsMap) (fb : Nat)
    (idx : Nat) (next : List NextItem) (i : Nat) (s : Slot)
    (h : (buildSlots keys params fb idx next).get? i = some s) :
    s.key = keys.getD (idx + i) 0 := by
  induction next generalizing idx i with
  | nil => simp [buildSlots] at h
  | cons item rest ih =>
    cases i with
    | zero =>
      simp only [buildSlots, List.get?] at h
      cases h
      cases item <;> simp [buildSlot]
    | succ i' =>
      simp only [buildSlots, List.get?] at h
      have := ih (idx + 1) i' h
      simpa [Nat.add_assoc, Nat.add_comm 1 i'] using this

theorem bumpFrom_key (start idx : Nat) (l : List Slot) (i : Nat) (s' : Slot)
    (h : (bumpFrom start idx l).get? i = some s') :
    ∃ s, l.get? i = some s ∧ s.key ≤ s'.key := by
  induction l generalizing idx i with
  | nil => simp [bumpFrom] at h
  | cons s rest ih =>
    cases i with
    | zero =>
      simp only [bumpFrom, List.get?] at h
      refine ⟨s, rfl, ?_⟩
      split at h <;> (cases h; simp)
    | succ i' =>
      simp only [bumpFrom, List.get?] at h
      exact ih (idx + 1) i' h

/-- Claim C5 (amended): every tree produced by `calculateTree` has
`eq ∈ [-1, min (len a) (len b) - 1]`; the buffer copied from `prev` is
untouched; and each incoming-buffer slot's key is at least the key it
inherited from the previous outgoing buffer at the same position — so a key
never decreases relative to the buffer it was derived from. (The initial
tree is excluded: its `eq` is `0` with empty buffers, outside the range; and
a slot's key can decrease relative to the same slot index a few
reconciliations earlier once an intervening shorter buffer resets inherited
keys to 0 — see the counterexample.) -/
theorem calculateTree_eq_range_and_key_bound (prev : TreeVal) (next : List NextItem)
    (cy : Cycle2) (params : ParamsMap) (fb : Nat) :
    (-1 ≤ (calculateTree prev next cy params fb).eq
      ∧ (calculateTree prev next cy params fb).eq
          ≤ min ((calculateTree prev next cy params fb).a.length : Int)
              ((calculateTree prev next cy params fb).b.length : Int) - 1)
    ∧ outgoingOf (calculateTree prev next cy params fb) cy = outgoingOf prev cy
    ∧ ∀ i s', (incomingOf (calculateTree prev next cy params fb) cy).get? i = some s' →
        ((outgoingOf prev cy).map Slot.key).getD i 0 ≤ s'.key := by
  have hrange : ∀ t : TreeVal, t = calculateTree prev next cy params fb →
      incomingOf t cy = bumpFrom
          ((firstDiffIdx (outgoingOf prev cy)
              (buildSlots ((outgoingOf prev cy).map Slot.key) params fb 0 next)).getD
            (min (outgoingOf prev cy).length
              (buildSlots ((outgoingOf prev cy).map Slot.key) params fb 0 next).length)) 0
          (buildSlots ((outgoingOf prev cy).map Slot.key) params fb 0 next)
        ∧ outgoingOf t cy = outgoingOf prev cy
        ∧ t.eq = ((firstDiffIdx (outgoingOf prev cy)
              (buildSlots ((outgoingOf prev cy).map Slot.key) params fb 0 next)).getD
            (min (outgoingOf prev cy).length
              (buildSlots ((outgoingOf prev cy).map Slot.key) params fb 0 next).length) : Int) - 1
        ∧ t.a.length = (match cy with
            | .ab => (buildSlots ((outgoingOf prev cy).map Slot.key) params fb 0 next).length
            | .ba => (outgoingOf prev cy).length)
        ∧ t.b.length = (match cy with
            | .ab => (outgoingOf prev cy).length
            | .ba => (buildSlots ((outgoingOf prev cy).map Slot.key) params fb 0 next).length) := by
    intro t ht
    subst ht
    cases cy <;> simp [calculateTree, incomingOf, outgoingOf, bumpFrom_length]
  obtain ⟨hin, hout, heq, hla, hlb⟩ := hrange _ rfl
  set lb := outgoingOf prev cy with hlbdef
  set la := buildSlots (lb.map Slot.key) params fb 0 next with hladef
  have hbs := bumpStart_le lb la
  refine ⟨?_, hout, ?_⟩
  · constructor
    · rw [heq]
      omega
    · rw [heq]
      cases cy <;> simp only at hla hlb <;> rw [hla, hlb] <;> omega
  · intro i s' h
    rw [hin] at h
    obtain ⟨s, hs, hkey⟩ := bumpFrom_key _ 0 la i s' h
    have := buildSlots_key (lb.map Slot.key) params fb 0 next i s (by simpa using hs)
    simp only [Nat.zero_add] at this
    omega

/-- Claim C5, witness: the key-bound clause of
`calculateTree_eq_range_and_key_bound` evaluated on the concrete Scenario-C
input (incoming slot 0 inherits key 0 and is bumped to 1, which is `≥ 0`). -/
theorem calculateTree_eq_range_and_key_bound_witness :
    (incomingOf (calculateTree ⟨[⟨compX, 0, .undef⟩], [], -1⟩ [.plain compY] .ba [] 0) .ba).get? 0
        = some ⟨compY, 1, .undef⟩
    ∧ ((outgoingOf (⟨[⟨compX, 0, .undef⟩], [], -1⟩ : TreeVal) .ba).map Slot.key).getD 0 0 ≤ 1 :=
  ⟨by decide,
    (calculateTree_eq_range_and_key_bound ⟨[⟨compX, 0, .undef⟩], [], -1⟩ [.plain compY]
        .ba [] 0).2.2 0 ⟨compY, 1, .undef⟩ (by decide)⟩

/-- Claim C5, counterexample: the claim fails on two counts. First, the
initial `componentTree` value (`a: [], b: [], eq: 0`) is observable through
the public API and has `eq = 0 > min 0 0 - 1 = -1`. Second, a slot key can
decrease across successive reconciliations: alternating the directions
exactly as the controller does (`ba`, `ab`, `ba`, ...), slot 1 of buffer `b`
holds key 3 after the third reconciliation and still holds it after the
fourth (which shortens the other buffer), but holds key 1 after the fifth —
the inherited key was reset to the default 0 by the intervening shorter
buffer. -/
theorem componentTree_invariant_counterexample :
    (initialComponentTree.eq = 0
      ∧ ¬ initialComponentTree.eq
            ≤ min (initialComponentTree.a.length : Int) (initialComponentTree.b.length : Int) - 1)
    ∧ ((calculateTree (calculateTree (calculateTree initialComponentTree
            [.plain compX, .plain compY] .ba [] 0)
            [.plain compX, .plain compZ] .ab [] 0)
            [.plain compX, .plain compY] .ba [] 0).b.map Slot.key).getD 1 0 = 3
    ∧ ((calculateTree (calculateTree (calculateTree (calculateTree (calculateTree
            initialComponentTree
            [.plain compX, .plain compY] .ba [] 0)
            [.plain compX, .plain compZ] .ab [] 0)
            [.plain compX, .plain compY] .ba [] 0)
            [.plain compX] .ab [] 0)
            [.plain compX, .plain compY] .ba [] 0).b.map Slot.key).getD 1 0 = 1 := by
  refine ⟨⟨rfl, by decide⟩, by decide, by decide⟩

/-- Claim C1, counterexample: reconciling
`prev = { a: [(X, key 0)], b: [], eq: -1 }` with `next = [Y]` and direction
`'ab'` does NOT leave `a` unchanged with `b = [(Y, key 1)]`: in the code the
FIRST letter of the direction names the buffer built from `next`
(`afterCycle`) and the SECOND letter the buffer copied from `prev`, so with
`'ab'` buffer `b` is copied (empty) and buffer `a` is rebuilt as
`[(Y, key 1)]`. -/
theorem calculateTree_scenarioC_ab_counterexample :
    calculateTree ⟨[⟨compX, 0, .undef⟩], [], -1⟩ [.plain compY] .ab [] 0
        = ⟨[⟨compY, 1, .undef⟩], [], -1⟩
    ∧ ¬ calculateTree ⟨[⟨compX, 0, .undef⟩], [], -1⟩ [.plain compY] .ab [] 0
        = ⟨[⟨compX, 0, .undef⟩], [⟨compY, 1, .undef⟩], -1⟩ := by
  constructor <;> decide

/-- Claim C1 (amended): in `calculateTree` the FIRST letter of the direction
names the incoming buffer (built from `next`) and the SECOND letter the
outgoing buffer (copied from `prev` unchanged) — the opposite of the claim's
reading. With that convention, Scenario C holds with direction `'ba'`:
reconciling `prev = { a: [(X, key 0)], b: [], eq: -1 }` with `next = [Y]`
and direction `'ba'` leaves `a` unchanged, builds `b = [(Y, key 1)]` (the
inherited key 0 bumped once because the reference differs), and yields
`eq = -1`. The first two conjuncts state the copy direction in general. -/
theorem calculateTree_scenarioC_ba :
    (∀ (prev : TreeVal) (next : List NextItem) (params : ParamsMap) (fb : Nat),
        (calculateTree prev next .ab params fb).b = prev.b)
    ∧ (∀ (prev : TreeVal) (next : List NextItem) (params : ParamsMap) (fb : Nat),
        (calculateTree prev next .ba params fb).a = prev.a)
    ∧ calculateTree ⟨[⟨compX, 0, .undef⟩], [], -1⟩ [.plain compY] .ba [] 0
        = ⟨[⟨compX, 0, .undef⟩], [⟨compY, 1, .undef⟩], -1⟩ := by
  refine ⟨?_, ?_, by decide⟩ <;> intro prev next params fb <;> simp [calculateTree, outgoingOf]

theorem matchViewF_no_slash (fuel : Nat) (pathname : String) (views : ViewsT)
    (hend : jsEndsWith pathname "/" = false) :
    matchViewF (fuel + 1) pathname views
      = scanCands (matchViewF fuel) views ((jsSplit '/' pathname).drop 1)
          (sortViews (views.map Prod.fst))
          { params := [], layouts := [], hooks := [], breakFromLayouts := false } := by
  simp [matchViewF, hend]

theorem breakFromLayouts_nonfinal_aux (g u : String) (cu cl : Comp)
    (hg1 : '/' ∉ g.data) (hu1 : '/' ∉ u.data)
    (hg2 : ':' ∉ g.data) (hu2 : ':' ∉ u.data)
    (hg3 : '*' ∉ g.data) (hu3 : '*' ∉ u.data)
    (hu4 : '(' ∉ u.data) (hu0 : u ≠ "") :
    matchView ("/" ++ g ++ "/" ++ u)
        [("/" ++ ("(" ++ g ++ ")") ++ "/" ++ u, Entry.comp cu), ("layout", Entry.comp cl)]
      = some { matched := some (.comp cu), layouts := [.comp cl], hooks := [],
               params := [], breakFromLayouts := false } := by
  have hud : u.data ≠ [] := fun h => hu0 (String.ext h)
  have hend : jsEndsWith ("/" ++ g ++ "/" ++ u) "/" = false := by
    apply jsEndsWith_false_of_append _ _ '/' rfl ('/' :: (g.data ++ ['/'])) u.data _ hud hu1
    simp [String.data_append]
  have hsplit : jsSplit '/' ("/" ++ g ++ "/" ++ u) = ["", g, u] := jsSplit_split3 g u hg1 hu1
  have hgp : '/' ∉ ("(" ++ g ++ ")").data := by
    simp [String.data_append]
    exact fun h => absurd h hg1
  have hsplitk : jsSplit '/' ("/" ++ ("(" ++ g ++ ")") ++ "/" ++ u) = ["", "(" ++ g ++ ")", u] :=
    jsSplit_split3 ("(" ++ g ++ ")") u hgp hu1
  have hpk : getViewPriority ("/" ++ ("(" ++ g ++ ")") ++ "/" ++ u) = 2 := by
    apply getViewPriority_eq_two _ '/' ('(' :: (g.data ++ [')', '/'] ++ u.data))
    · simp [String.data_append]
    · decide
    · simp
    · simp [String.data_append]
      refine ⟨fun h => absurd h hg2, fun h => absurd h hu2⟩
  have hsort : sortViews ["/" ++ ("(" ++ g ++ ")") ++ "/" ++ u, "layout"]
      = ["/" ++ ("(" ++ g ++ ")") ++ "/" ++ u, "layout"] := by
    have hpl : getViewPriority "layout" = 2 := by decide
    simp [sortViews, insertByPri, hpk, hpl]
  have hbfl1 : jsStartsWith ("(" ++ g ++ ")") "(" = true := by
    rw [jsStartsWith_eq_head _ _ '(' rfl]
    have hd : ("(" ++ g ++ ")").data = '(' :: (g.data ++ [')']) := by simp [String.data_append]
    rw [hd]
    simp
  have hbfl2 : jsEndsWith ("(" ++ g ++ ")") ")" = true := by
    have hd : ("(" ++ g ++ ")").data = ('(' :: g.data) ++ [')'] := by simp [String.data_append]
    rw [jsEndsWith, hd]
    exact isSuffixOf_singleton_concat ')' _
  have hstrip : jsDropBoth ("(" ++ g ++ ")") = g := by
    have hd : ("(" ++ g ++ ")").data = '(' :: (g.data ++ [')']) := by simp [String.data_append]
    rw [jsDropBoth, hd]
    simp [mk_data]
  have hgc : jsStartsWith g ":" = false := jsStartsWith_false_of_not_mem g ":" ':' rfl hg2
  have hgs : jsStartsWith g "*" = false := jsStartsWith_false_of_not_mem g "*" '*' rfl hg3
  have huc : jsStartsWith u ":" = false := jsStartsWith_false_of_not_mem u ":" ':' rfl hu2
  have hus : jsStartsWith u "*" = false := jsStartsWith_false_of_not_mem u "*" '*' rfl hu3
  have hup : jsStartsWith u "(" = false := jsStartsWith_false_of_not_mem u "(" '(' rfl hu4
  have hjoin : ("/" ++ jsJoin "/" ["(" ++ g ++ ")", u]) = "/" ++ ("(" ++ g ++ ")") ++ "/" ++ u := by
    apply String.ext
    simp [jsJoin, joinChars, String.data_append]
  have hlay : ("layout" == ("/" ++ ("(" ++ g ++ ")") ++ "/" ++ u)) = false := by
    simp [String.ext_iff, String.data_append]
  have hhk : ("hooks" == ("/" ++ ("(" ++ g ++ ")") ++ "/" ++ u)) = false := by
    simp [String.ext_iff, String.data_append]
  show matchViewF (0 + 1) _ _ = _
  rw [matchViewF_no_slash 0 _ _ hend, hsplit]
  simp only [List.map, List.drop]
  rw [hsort]
  simp only [scanCands, hsplitk]
  simp only [List.head?, List.drop]
  simp [scanSegs, hbfl1, hbfl2, hstrip, hgc, hgs, huc, hus, hup, lastSegBlock, hjoin,
    List.lookup, hlay, hhk, pushLayoutIf, hooksIdsOf]

theorem breakFromLayouts_final_aux (g u : String) (cu cl : Comp)
    (hg1 : '/' ∉ g.data) (hu1 : '/' ∉ u.data)
    (hg2 : ':' ∉ g.data) (hu2 : ':' ∉ u.data)
    (hg3 : '*' ∉ g.data) (hu3 : '*' ∉ u.data)
    (hg4 : '(' ∉ g.data) (hu0 : u ≠ "") :
    matchView ("/" ++ g ++ "/" ++ u)
        [("/" ++ g ++ "/" ++ ("(" ++ u ++ ")"), Entry.comp cu), ("layout", Entry.comp cl)]
      = some { matched := some (.comp cu), layouts := [], hooks := [],
               params := [], breakFromLayouts := true } := by
  have hud : u.data ≠ [] := fun h => hu0 (String.ext h)
  have hend : jsEndsWith ("/" ++ g ++ "/" ++ u) "/" = false := by
    apply jsEndsWith_false_of_append _ _ '/' rfl ('/' :: (g.data ++ ['/'])) u.data _ hud hu1
    simp [String.data_append]
  have hsplit : jsSplit '/' ("/" ++ g ++ "/" ++ u) = ["", g, u] := jsSplit_split3 g u hg1 hu1
  have hup' : '/' ∉ ("(" ++ u ++ ")").data := by
    simp [String.data_append]
    exact fun h => absurd h hu1
  have hsplitk : jsSplit '/' ("/" ++ g ++ "/" ++ ("(" ++ u ++ ")")) = ["", g, "(" ++ u ++ ")"] :=
    jsSplit_split3 g ("(" ++ u ++ ")") hg1 hup'
  have hpk : getViewPriority ("/" ++ g ++ "/" ++ ("(" ++ u ++ ")")) = 2 := by
    apply getViewPriority_eq_two _ '/' (g.data ++ '/' :: '(' :: (u.data ++ [')']))
    · simp [String.data_append]
    · decide
    · simp
    · simp [String.data_append]
      refine ⟨fun h => absurd h hg2, fun h => absurd h hu2⟩
  have hsort : sortViews ["/" ++ g ++ "/" ++ ("(" ++ u ++ ")"), "layout"]
      = ["/" ++ g ++ "/" ++ ("(" ++ u ++ ")"), "layout"] := by
    have hpl : getViewPriority "layout" = 2 := by decide
    simp [sortViews, insertByPri, hpk, hpl]
  have hbfl1 : jsStartsWith ("(" ++ u ++ ")") "(" = true := by
    rw [jsStartsWith_eq_head _ _ '(' rfl]
    have hd : ("(" ++ u ++ ")").data = '(' :: (u.data ++ [')']) := by simp [String.data_append]
    rw [hd]
    simp
  have hbfl2 : jsEndsWith ("(" ++ u ++ ")") ")" = true := by
    have hd : ("(" ++ u ++ ")").data = ('(' :: u.data) ++ [')'] := by simp [String.data_append]
    rw [jsEndsWith, hd]
    exact isSuffixOf_singleton_concat ')' _
  have hstrip : jsDropBoth ("(" ++ u ++ ")") = u := by
    have hd : ("(" ++ u ++ ")").data = '(' :: (u.data ++ [')']) := by simp [String.data_append]
    rw [jsDropBoth, hd]
    simp [mk_data]
  have hgc : jsStartsWith g ":" = false := jsStartsWith_false_of_not_mem g ":" ':' rfl hg2
  have hgs : jsStartsWith g "*" = false := jsStartsWith_false_of_not_mem g "*" '*' rfl hg3
  have hgp : jsStartsWith g "(" = false := jsStartsWith_false_of_not_mem g "(" '(' rfl hg4
  have huc : jsStartsWith u ":" = false := jsStartsWith_false_of_not_mem u ":" ':' rfl hu2
  have hus : jsStartsWith u "*" = false := jsStartsWith_false_of_not_mem u "*" '*' rfl hu3
  have hjoin : ("/" ++ jsJoin "/" [g, "(" ++ u ++ ")"]) = "/" ++ g ++ "/" ++ ("(" ++ u ++ ")") := by
    apply String.ext
    simp [jsJoin, joinChars, String.data_append]
  have hlay : ("layout" == ("/" ++ g ++ "/" ++ ("(" ++ u ++ ")"))) = false := by
    simp [String.ext_iff, String.data_append]
  have hhk : ("hooks" == ("/" ++ g ++ "/" ++ ("(" ++ u ++ ")"))) = false := by
    simp [String.ext_iff, String.data_append]
  show matchViewF (0 + 1) _ _ = _
  rw [matchViewF_no_slash 0 _ _ hend, hsplit]
  simp only [List.map, List.drop]
  rw [hsort]
  simp only [scanCands, hsplitk]
  simp only [List.head?, List.drop]
  simp [scanSegs, hbfl1, hbfl2, hstrip, hgc, hgs, hgp, huc, hus, lastSegBlock, hjoin,
    List.lookup, hlay, hhk, pushLayoutIf, hooksIdsOf]

/-- Claim C7 (amended): a `(segment)` boundary is stripped of its
parentheses before comparison, but `breakFromLayouts` is REASSIGNED at every
segment, so it reflects only the most recently scanned segment: a
parenthesised NON-final segment does not exclude the ancestor layout (first
conjunct: the layout is inherited and the returned flag is `false`), while a
parenthesised FINAL segment does (second conjunct: layouts empty, flag
`true`). Stated for any layout and view components and any two segment
names free of the separator and pattern metacharacters. -/
theorem matchView_paren_strip_and_flag (g u : String) (cu cl : Comp)
    (hg1 : '/' ∉ g.data) (hu1 : '/' ∉ u.data)
    (hg2 : ':' ∉ g.data) (hu2 : ':' ∉ u.data)
    (hg3 : '*' ∉ g.data) (hu3 : '*' ∉ u.data)
    (hg4 : '(' ∉ g.data) (hu4 : '(' ∉ u.data) (hu0 : u ≠ "") :
    matchView ("/" ++ g ++ "/" ++ u)
        [("/" ++ ("(" ++ g ++ ")") ++ "/" ++ u, Entry.comp cu), ("layout", Entry.comp cl)]
      = some { matched := some (.comp cu), layouts := [.comp cl], hooks := [],
               params := [], breakFromLayouts := false }
    ∧ matchView ("/" ++ g ++ "/" ++ u)
        [("/" ++ g ++ "/" ++ ("(" ++ u ++ ")"), Entry.comp cu), ("layout", Entry.comp cl)]
      = some { matched := some (.comp cu), layouts := [], hooks := [],
               params := [], breakFromLayouts := true } :=
  ⟨breakFromLayouts_nonfinal_aux g u cu cl hg1 hu1 hg2 hu2 hg3 hu3 hu4 hu0,
    breakFromLayouts_final_aux g u cu cl hg1 hu1 hg2 hu2 hg3 hu3 hg4 hu0⟩

/-- Claim C7, witness: the amended theorem at the concrete segments
`admin`/`users`. -/
theorem matchView_paren_strip_and_flag_witness :
    matchView "/admin/users"
        [("/(admin)/users", Entry.comp compX), ("layout", Entry.comp compY)]
      = some { matched := some (.comp compX), layouts := [.comp compY], hooks := [],
               params := [], breakFromLayouts := false }
    ∧ matchView "/admin/users"
        [("/admin/(users)", Entry.comp compX), ("layout", Entry.comp compY)]
      = some { matched := some (.comp compX), layouts := [], hooks := [],
               params := [], breakFromLayouts := true } :=
  matchView_paren_strip_and_flag "admin" "users" compX compY
    (by decide) (by decide) (by decide) (by decide) (by decide) (by decide)
    (by decide) (by decide) (by decide)

/-- Claim C7, counterexample: scanning the pattern `/(admin)/users` against
`/admin/users` with an ancestor `layout` present, the `(admin)` boundary
does NOT keep `breakFromLayouts` true for the remaining segments: the
returned flag is `false` (it was reassigned at the `users` segment) and the
ancestor layout IS inherited (one layout in the chain), where the claim
requires the flag to remain `true` and the layout to be excluded. -/
theorem matchView_paren_flag_counterexample :
    (matchView "/admin/users"
        [("/(admin)/users", Entry.comp compX), ("layout", Entry.comp compY)]).map
        (fun r => (r.breakFromLayouts, r.layouts.length))
      = some (false, 1)
    ∧ (matchView "/admin/users"
        [("/(admin)/users", Entry.comp compX), ("layout", Entry.comp compY)]).map
        (fun r => (r.breakFromLayouts, r.layouts.length))
      ≠ some (true, 0) := by
  constructor
  · rfl
  · decide

/-- Claim C9 (amended): the round trip holds for a table whose only pattern
is the target one and a nonempty, slash-free param value: constructing
`/users/:id` with `id = v` and feeding it back into the matcher returns
exactly `id = v` (and the pattern's view as the match). In general the round
trip fails — see the counterexample: a candidate scanned and rejected
before the winner leaves its bindings in the returned params. -/
theorem constructPath_matchView_roundTrip (v : String) (hv : v ≠ "")
    (hs : '/' ∉ v.data) (V : Comp) :
    matchView (constructPath "/users/:id" (some [("id", some v)]))
        [("/users/:id", Entry.comp V)]
      = some { matched := some (.comp V), layouts := [], hooks := [],
               params := [("id", some v)], breakFromLayouts := false } := by
  have hcp : constructPath "/users/:id" (some [("id", some v)]) = "/" ++ "users" ++ "/" ++ v := by
    apply String.ext
    show ['/', 'u', 's', 'e', 'r', 's', '/'] ++ (v.data ++ []) = _
    simp [String.data_append]
  rw [hcp]
  have hvd : v.data ≠ [] := fun h => hv (String.ext h)
  have hend : jsEndsWith ("/" ++ "users" ++ "/" ++ v) "/" = false := by
    apply jsEndsWith_false_of_append _ _ '/' rfl ['/', 'u', 's', 'e', 'r', 's', '/'] v.data _ hvd hs
    simp [String.data_append]
  have hsplit : jsSplit '/' ("/" ++ "users" ++ "/" ++ v) = ["", "users", v] :=
    jsSplit_split3 "users" v (by decide) hs
  show matchViewF (0 + 1) ("/" ++ "users" ++ "/" ++ v) _ = _
  rw [matchViewF_no_slash 0 _ _ hend, hsplit]
  rfl

/-- Claim C9, witness: the amended round trip at `id = "42"`. -/
theorem constructPath_matchView_roundTrip_witness :
    matchView (constructPath "/users/:id" (some [("id", some "42")]))
        [("/users/:id", Entry.comp compX)]
      = some { matched := some (.comp compX), layouts := [], hooks := [],
               params := [("id", some "42")], breakFromLayouts := false } :=
  constructPath_matchView_roundTrip "42" (by decide) (by decide) compX

/-- Claim C9, counterexample: with the table
`{ '/:x/a': X, '/:y/b': Y }` (two dynamic patterns, declaration order
preserved by the stable sort), `p('/:y/b', { y: 'p' }) = '/p/b'`, but
matching `/p/b` returns `{ x: 'p', y: 'p' }`, not `{ y: 'p' }`: the matcher
scanned and rejected `/:x/a` first and its binding of `x` survives. -/
theorem constructPath_roundTrip_counterexample :
    constructPath "/:y/b" (some [("y", some "p")]) = "/p/b"
    ∧ (matchView "/p/b"
        [("/:x/a", Entry.comp compX), ("/:y/b", Entry.comp compY)]).map MatchOut.params
      = some [("x", some "p"), ("y", some "p")]
    ∧ (some [("x", some "p"), ("y", some "p")] : Option ParamsMap) ≠ some [("y", some "p")] := by
  refine ⟨rfl, rfl, by decide⟩

/-- Claim C8 (amended): `isActive`'s three branches behave as follows.
(1) If the pattern contains no `:`, the result is verbatim equality of the
current pathname with the pattern — any params argument is ignored
(`isActive.startsWith` likewise, with a prefix comparison). (2) If the
pattern contains `:` and params are supplied, the result is verbatim
equality with the substituted pattern, as claimed. (3) If the pattern
contains `:` and no params are supplied, the function does NOT compare
segment-by-segment: whenever the first segment of the current pathname does
not itself start with `:` (the normal case — the source inspects the
CURRENT pathname's segments for `:`, not the pattern's), the result is the
comparison of just the FIRST pattern segment with the first current
segment, regardless of all later segments. -/
theorem isActive_characterization :
    (∀ (pattern : String) (params : Option ParamsMap) (cur : String),
        jsIncludesChar pattern ':' = false →
          isActive pattern params cur = some (cur == pattern)
          ∧ isActiveStarts pattern params cur = some (jsStartsWith cur pattern))
    ∧ (∀ (pattern : String) (ps : ParamsMap) (cur : String),
        jsIncludesChar pattern ':' = true →
          isActive pattern (some ps) cur
              = some (cur == constructPath pattern (some ps))
          ∧ isActiveStarts pattern (some ps) cur
              = some (jsStartsWith cur (constructPath pattern (some ps))))
    ∧ (∀ (pattern cur : String) (p0 v0 : String) (prest vrest : List String),
        jsIncludesChar pattern ':' = true →
        (jsSplit '/' pattern).drop 1 = p0 :: prest →
        (jsSplit '/' cur).drop 1 = v0 :: vrest →
        jsStartsWith v0 ":" = false →
          isActive pattern none cur = some (p0 == v0)) := by
  refine ⟨?_, ?_, ?_⟩
  · intro pattern params cur h
    constructor <;> simp [isActive, isActiveStarts, compare, h]
  · intro pattern ps cur h
    constructor <;> simp [isActive, isActiveStarts, compare, h]
  · intro pattern cur p0 v0 prest vrest h hp hv h0
    simp only [isActive, compare, h]
    rw [hp, hv]
    simp [compareLoop, h0]

/-- Claim C8, witness: the characterization applied at concrete inputs —
branch (1) at pattern `/a/b`, branch (2) at `/a/:id` with `id = "5"`, and
branch (3) at pattern `/a/:id` against current pathname `/a` (where only the
first segments `a` and `a` are compared, so the result is `true` even
though the segment counts differ). -/
theorem isActive_characterization_witness :
    isActive "/a/b" none "/q" = some ("/q" == "/a/b")
    ∧ isActive "/a/:id" (some [("id", some "5")]) "/a/5"
        = some ("/a/5" == constructPath "/a/:id" (some [("id", some "5")]))
    ∧ isActive "/a/:id" none "/a" = some ("a" == "a") :=
  ⟨(isActive_characterization.1 "/a/b" none "/q" (by decide)).1,
    (isActive_characterization.2.1 "/a/:id" [("id", some "5")] "/a/5" (by decide)).1,
    isActive_characterization.2.2 "/a/:id" "/a" "a" "a" [":id"] [] (by decide) rfl rfl
      (by decide)⟩

/-- Claim C8, counterexample: `isActive('/a/:id')` with no params and
current pathname `/a` returns `true` — the source returns after comparing
only the first segment — while the claimed segment-by-segment semantics
(every `:` PATTERN segment matching one path segment) gives `false`, the
pattern having two segments and the pathname one. -/
theorem isActive_segment_counterexample :
    isActive "/a/:id" none "/a" = some true
    ∧ isActiveSpec "/a/:id" none "/a" = false := by
  constructor <;> decide

theorem runHooks_aborts (out : Nat → HookOutcome) (ph : Phase) (cur pending : Nat)
    (hooks : List Nat) (h : ∃ x ∈ hooks, out x = .err) :
    (runHooks out ph cur pending hooks).2.1 = true := by
  induction hooks generalizing pending with
  | nil => simp at h
  | cons a t ih =>
    rcases h with ⟨x, hx, hxe⟩
    simp only [runHooks]
    cases ho : out a
    · rcases List.mem_cons.mp hx with rfl | hxt
      · rw [ho] at hxe
        cases hxe
      · exact ih cur ⟨x, hxt, hxe⟩
    · rfl

theorem runHooks_clean (out : Nat → HookOutcome) (ph : Phase) (cur pending : Nat)
    (hooks : List Nat) (h : ∀ x ∈ hooks, out x = .ok) :
    (runHooks out ph cur pending hooks).2.1 = false := by
  induction hooks generalizing pending with
  | nil => rfl
  | cons a t ih =>
    simp only [runHooks]
    cases ho : out a
    · exact ih cur (fun x hx => h x (List.mem_cons_of_mem a hx))
    · have hco := h a (List.mem_cons_self a t)
      rw [ho] at hco
      cases hco

theorem onNavigate_to_beforePhase (env : NavEnv) (s : CtrlState) (p : String)
    (opts : NavOptions) (mv : MatchOut)
    (hbp : opts.bypass = false) (hp : p ≠ "") (hb : s.baseName = none)
    (hv : s.views.length ≠ 0) (hr : s.isRendering = false)
    (hc : s.cycle = .a ∨ s.cycle = .b)
    (hmv : matchView p s.views = some mv) :
    onNavigate env s (some p) opts
      = beforeLoadPhase env opts (some p) mv (s.navigationIndex + 1)
          { s with navigationIndex := s.navigationIndex + 1 } := by
  have hp' : (p == "") = false := by simpa using hp
  have hcn : ¬ (s.cycle = .ab ∨ s.cycle = .ba) := by
    rcases hc with h | h <;> simp [h]
  simp [onNavigate, onNavigateChecks, hp', hv, hr, hcn, hb, hmv, hbp]

theorem c3_beforeThrow_aux (env : NavEnv) (s : CtrlState) (p : String)
    (opts : NavOptions) (mv : MatchOut)
    (hbp : opts.bypass = false) (hp : p ≠ "") (hb : s.baseName = none)
    (hv : s.views.length ≠ 0) (hr : s.isRendering = false)
    (hc : s.cycle = .a ∨ s.cycle = .b)
    (hmv : matchView p s.views = some mv)
    (hex : ∃ x ∈ mv.hooks, env.beforeOutcome x = .err) :
    (onNavigate env s (some p) opts).1.tree = s.tree
      ∧ (onNavigate env s (some p) opts).1.cycle = s.cycle
      ∧ (onNavigate env s (some p) opts).1.phase = .idle
      ∧ (onNavigate env s (some p) opts).2.2 = .ok := by
  rw [onNavigate_to_beforePhase env s p opts mv hbp hp hb hv hr hc hmv]
  have habort := runHooks_aborts env.beforeOutcome .beforeLoad (s.navigationIndex + 1)
    s.pendingNavigationIndex mv.hooks hex
  simp [beforeLoadPhase, habort]

theorem c3_duringThrow_aux (env : NavEnv) (s : CtrlState) (p : String)
    (opts : NavOptions) (mv : MatchOut)
    (hbp : opts.bypass = false) (hp : p ≠ "") (hb : s.baseName = none)
    (hv : s.views.length ≠ 0) (hr : s.isRendering = false)
    (hc : s.cycle = .a ∨ s.cycle = .b)
    (hmv : matchView p s.views = some mv)
    (hok : ∀ x ∈ mv.hooks, env.beforeOutcome x = .ok)
    (hb0 : env.bumpBefore = 0) (hf0 : env.fromBeforeLoadHook = false)
    (hex : ∃ x ∈ mv.hooks, env.duringOutcome x = .err) :
    (onNavigate env s (some p) opts).1.tree = s.tree
      ∧ (onNavigate env s (some p) opts).1.cycle = s.cycle
      ∧ (onNavigate env s (some p) opts).1.phase = .idle
      ∧ (onNavigate env s (some p) opts).2.2 = .ok := by
  rw [onNavigate_to_beforePhase env s p opts mv hbp hp hb hv hr hc hmv]
  have hclean := runHooks_clean env.beforeOutcome .beforeLoad (s.navigationIndex + 1)
    s.pendingNavigationIndex mv.hooks hok
  have habort := fun pend => runHooks_aborts env.duringOutcome .duringLoad
    (s.navigationIndex + 1) pend mv.hooks hex
  simp [beforeLoadPhase, hclean, hb0, hf0, duringLoadPhase, habort]

/-- Claim C3 (confirmed): for a non-bypass navigation from a stable state
(no base path, table nonempty, not rendering, pattern matched), (1) if any
`beforeLoad` hook throws, the resulting ComponentTree and Cycle equal their
values before the navigation, Phase is back at `idle`, and `onNavigate`
returns normally (the error is swallowed); (2) if all `beforeLoad` hooks
succeed (with no concurrent ticket bumps and a top-level call) and any
`duringLoad` hook throws, the controller rolls the already-mutated tree
back to the previous snapshot, reverts Cycle to its prior stable value,
returns Phase to `idle`, and again returns normally. -/
theorem onNavigate_hook_throw_rollback :
    (∀ (env : NavEnv) (s : CtrlState) (p : String) (opts : NavOptions) (mv : MatchOut),
      opts.bypass = false → p ≠ "" → s.baseName = none →
      s.views.length ≠ 0 → s.isRendering = false →
      (s.cycle = .a ∨ s.cycle = .b) →
      matchView p s.views = some mv →
      (∃ x ∈ mv.hooks, env.beforeOutcome x = .err) →
        (onNavigate env s (some p) opts).1.tree = s.tree
          ∧ (onNavigate env s (some p) opts).1.cycle = s.cycle
          ∧ (onNavigate env s (some p) opts).1.phase = .idle
          ∧ (onNavigate env s (some p) opts).2.2 = .ok)
    ∧ (∀ (env : NavEnv) (s : CtrlState) (p : String) (opts : NavOptions) (mv : MatchOut),
      opts.bypass = false → p ≠ "" → s.baseName = none →
      s.views.length ≠ 0 → s.isRendering = false →
      (s.cycle = .a ∨ s.cycle = .b) →
      matchView p s.views = some mv →
      (∀ x ∈ mv.hooks, env.beforeOutcome x = .ok) →
      env.bumpBefore = 0 → env.fromBeforeLoadHook = false →
      (∃ x ∈ mv.hooks, env.duringOutcome x = .err) →
        (onNavigate env s (some p) opts).1.tree = s.tree
          ∧ (onNavigate env s (some p) opts).1.cycle = s.cycle
          ∧ (onNavigate env s (some p) opts).1.phase = .idle
          ∧ (onNavigate env s (some p) opts).2.2 = .ok) :=
  ⟨fun env s p opts mv hbp hp hb hv hr hc hmv hex =>
      c3_beforeThrow_aux env s p opts mv hbp hp hb hv hr hc hmv hex,
    fun env s p opts mv hbp hp hb hv hr hc hmv hok hb0 hf0 hex =>
      c3_duringThrow_aux env s p opts mv hbp hp hb hv hr hc hmv hok hb0 hf0 hex⟩

/-- Claim C3, witness: both halves of the rollback theorem at the concrete
table with one hooks entry — an erring `beforeLoad` hook, then an erring
`duringLoad` hook, both starting from the rest state on `/`. -/
theorem onNavigate_hook_throw_rollback_witness :
    ((onNavigate beforeErrEnv restState (some "/") {}).1.tree = restState.tree
      ∧ (onNavigate beforeErrEnv restState (some "/") {}).1.cycle = restState.cycle
      ∧ (onNavigate beforeErrEnv restState (some "/") {}).1.phase = .idle
      ∧ (onNavigate beforeErrEnv restState (some "/") {}).2.2 = .ok)
    ∧ ((onNavigate duringErrEnv restState (some "/") {}).1.tree = restState.tree
      ∧ (onNavigate duringErrEnv restState (some "/") {}).1.cycle = restState.cycle
      ∧ (onNavigate duringErrEnv restState (some "/") {}).1.phase = .idle
      ∧ (onNavigate duringErrEnv restState (some "/") {}).2.2 = .ok) :=
  ⟨onNavigate_hook_throw_rollback.1 beforeErrEnv restState "/" {}
      { matched := some (.comp compX), layouts := [], hooks := [0],
        params := [], breakFromLayouts := false }
      rfl (by decide) rfl (by decide) rfl (Or.inl rfl) rfl
      ⟨0, by decide, rfl⟩,
    onNavigate_hook_throw_rollback.2 duringErrEnv restState "/" {}
      { matched := some (.comp compX), layouts := [], hooks := [0],
        params := [], breakFromLayouts := false }
      rfl (by decide) rfl (by decide) rfl (Or.inl rfl) rfl
      (fun x _ => rfl) rfl rfl ⟨0, by decide, rfl⟩⟩

/-- Claim C4 (amended): while Cycle is transitional (`ab` or `ba`), EVERY
newly initiated navigation with a path — bypass or not — is rejected
immediately: the guard `if (cycle.value === 'ba' || cycle.value === 'ab')
return` runs before the bypass option is read, so `onNavigate` returns with
the state exactly unchanged, no effects (no history/location commit), and
no ticket consumed (the guard precedes `navigationIndex++`). The claim's
non-bypass half holds; its bypass half does not — see the
counterexample. -/
theorem onNavigate_transitional_guard (env : NavEnv) (s : CtrlState) (p : String)
    (opts : NavOptions) (hp : p ≠ "") (hv : s.views.length ≠ 0)
    (hr : s.isRendering = false) (hc : s.cycle = .ab ∨ s.cycle = .ba) :
    onNavigate env s (some p) opts = (s, [], .ok) := by
  have hp' : (p == "") = false := by simpa using hp
  simp [onNavigate, onNavigateChecks, hp', hv, hr, hc]

/-- Claim C4, witness: the transitional guard at the concrete in-flight
state, non-bypass options. -/
theorem onNavigate_transitional_guard_witness :
    onNavigate quietEnv transitionalState (some "/target") {}
      = (transitionalState, [], .ok) :=
  onNavigate_transitional_guard quietEnv transitionalState "/target" {}
    (by decide) (by decide) rfl (Or.inl rfl)

/-- Claim C4, counterexample: a BYPASS navigation issued while Cycle is
`ab` does not proceed to the history/location commit step: it is rejected
exactly like a non-bypass one — state unchanged (in particular the location
snapshot still shows `/`, not the target) and no effects at all, where the
claim requires the bypass navigation to reach the commit step during that
window. -/
theorem onNavigate_bypass_rejected_counterexample :
    onNavigate quietEnv transitionalState (some "/target") { bypass := true }
      = (transitionalState, [], .ok)
    ∧ transitionalState.loc.pathname ≠ "/target" := by
  constructor
  · rfl
  · decide

/-- Claim C10 (confirmed): `navigate` with a numeric history delta only
emits `history.go(delta)` and returns: the controller state (ComponentTree,
Cycle, Phase, params, location, tickets, registry) is returned untouched,
no hook-call effect is emitted, and no matching phase is entered. -/
theorem navigate_history_delta (env : NavEnv) (s : CtrlState) (n : Int)
    (opts : NavOptions) :
    navigate env s (.inl n) opts = (s, [Effect.histGo n], .ok) := rfl


theorem lastSegBlockI_erase
    (recI : String → ViewsT → Option (MatchOut × Option (List (List String))))
    (rec : String → ViewsT → Option MatchOut)
    (hrec : ∀ pn vs, rec pn vs = (recI pn vs).map Prod.fst)
    (views : ViewsT) (pathParts viewParts : List String) (index : Nat) (st : ScanSt) :
    lastSegBlock rec views pathParts viewParts index st
      = eraseSegRes (lastSegBlockI recI views pathParts viewParts index st) := by
  simp only [lastSegBlock, lastSegBlockI, hrec]
  cases List.lookup ("/" ++ jsJoin "/" viewParts) views with
  | none => rfl
  | some e =>
    cases e with
    | comp c =>
      by_cases hl : viewParts.length = pathParts.length <;> simp [eraseSegRes, hl]
    | arr c sub pn =>
      by_cases hl : viewParts.length = pathParts.length <;> simp [eraseSegRes, hl]
    | nested vs =>
      simp only []
      cases recI ("/" ++ jsJoin "/" (pathParts.drop (index + 1))) vs with
      | none => rfl
      | some rw =>
        cases rw
        rfl
    | hooksV i => rfl

theorem scanSegs_erase
    (recI : String → ViewsT → Option (MatchOut × Option (List (List String))))
    (rec : String → ViewsT → Option MatchOut)
    (hrec : ∀ pn vs, rec pn vs = (recI pn vs).map Prod.fst)
    (views : ViewsT) (pathParts viewParts : List String) :
    ∀ (rest : List String) (index : Nat) (st : ScanSt),
      scanSegs rec views pathParts viewParts rest index st
        = eraseSegRes (scanSegsI recI views pathParts viewParts rest index st) := by
  intro rest
  induction rest with
  | nil => intro index st; rfl
  | cons seg rest' ih =>
    intro index st
    simp only [scanSegs, scanSegsI]
    by_cases h1 : jsStartsWith
        (if jsStartsWith seg "(" && jsEndsWith seg ")" then jsDropBoth seg else seg) ":" = true
    · by_cases hidx : index ≠ viewParts.length - 1
      · simp only [h1, if_true, if_pos hidx]
        exact ih _ _
      · simp only [h1, if_true, if_neg hidx]
        exact lastSegBlockI_erase recI rec hrec views pathParts viewParts _ _
    · by_cases h2 : jsStartsWith
          (if jsStartsWith seg "(" && jsEndsWith seg ")" then jsDropBoth seg else seg) "*" = true
      · simp only [h1, h2, if_false, if_true, Bool.false_eq_true]
        rfl
      · by_cases h3 : some (if jsStartsWith seg "(" && jsEndsWith seg ")" then jsDropBoth seg
            else seg) ≠ pathParts.get? index
        · simp only [h1, h2, Bool.false_eq_true, if_false, if_pos h3]
          rfl
        · by_cases hidx : index ≠ viewParts.length - 1
          · simp only [h1, h2, Bool.false_eq_true, if_false, if_neg h3, if_pos hidx]
            exact ih _ _
          · simp only [h1, h2, Bool.false_eq_true, if_false, if_neg h3, if_neg hidx]
            exact lastSegBlockI_erase recI rec hrec views pathParts viewParts _ _

theorem scanCands_erase
    (recI : String → ViewsT → Option (MatchOut × Option (List (List String))))
    (rec : String → ViewsT → Option MatchOut)
    (hrec : ∀ pn vs, rec pn vs = (recI pn vs).map Prod.fst)
    (views : ViewsT) (pathParts : List String) :
    ∀ (cands : List String) (st : ScanSt),
      scanCands rec views pathParts cands st
        = (scanCandsI recI views pathParts cands st).map Prod.fst := by
  intro cands
  induction cands with
  | nil => intro st; rfl
  | cons v rest ih =>
    intro st
    simp only [scanCands, scanCandsI]
    rw [scanSegs_erase recI rec hrec]
    cases scanSegsI recI views pathParts _ _ 0 st with
    | next st' => exact ih st'
    | done st' m w => rfl
    | err => rfl

theorem matchViewF_erase :
    ∀ (fuel : Nat) (pn : String) (vs : ViewsT),
      matchViewF fuel pn vs = (matchViewIF fuel pn vs).map Prod.fst := by
  intro fuel
  induction fuel with
  | zero => intro pn vs; rfl
  | succ f ih =>
    intro pn vs
    simp only [matchViewF, matchViewIF]
    exact scanCands_erase (matchViewIF f) (matchViewF f) ih vs _ _ _



theorem pKeys_objSet_mono (m : ParamsMap) (k : String) (v : Option String) (x : String)
    (h : x ∈ pKeys m) : x ∈ pKeys (objSet m k v) := by
  unfold objSet pKeys
  split
  · rw [List.map_map]
    rcases List.mem_map.mp h with ⟨kv, hkv, hx⟩
    refine List.mem_map.mpr ⟨kv, hkv, ?_⟩
    simp only [Function.comp]
    split
    · rename_i hb
      rw [← eq_of_beq hb]
      exact hx
    · exact hx
  · rw [List.map_append]
    exact List.mem_append_left _ h

theorem pKeys_objSet_self (m : ParamsMap) (k : String) (v : Option String) :
    k ∈ pKeys (objSet m k v) := by
  unfold objSet pKeys
  split
  · rename_i hany
    rcases List.any_eq_true.mp hany with ⟨kv, hkv, hb⟩
    rw [List.map_map]
    refine List.mem_map.mpr ⟨kv, hkv, ?_⟩
    simp only [Function.comp, hb]
    rfl
  · rw [List.map_append]
    apply List.mem_append_right
    simp

theorem pKeys_spreadMerge_left (a b : ParamsMap) (x : String)
    (h : x ∈ pKeys a) : x ∈ pKeys (spreadMerge a b) := by
  induction b generalizing a with
  | nil => exact h
  | cons kv t ih =>
    show x ∈ pKeys (spreadMerge (objSet a kv.1 kv.2) t)
    exact ih _ (pKeys_objSet_mono a kv.1 kv.2 x h)

theorem pKeys_spreadMerge_right (a b : ParamsMap) (x : String)
    (h : x ∈ pKeys b) : x ∈ pKeys (spreadMerge a b) := by
  induction b generalizing a with
  | nil => simp [pKeys] at h
  | cons kv t ih =>
    show x ∈ pKeys (spreadMerge (objSet a kv.1 kv.2) t)
    rcases List.mem_map.mp h with ⟨kv', hkv', hx⟩
    rcases List.mem_cons.mp hkv' with rfl | ht
    · exact pKeys_spreadMerge_left _ t x (hx ▸ pKeys_objSet_self a kv'.1 kv'.2)
    · exact ih _ (List.mem_map.mpr ⟨kv', ht, hx⟩)

theorem namedTrunc_singleton (seg : String) : namedTrunc [seg] = namedOfSeg seg := by
  simp only [namedTrunc]
  split <;> simp

theorem namedTrunc_append_no_wild (pre tail : List String)
    (h : ∀ s ∈ pre, isWildSeg s = false) :
    namedTrunc (pre ++ tail) = (pre.map namedOfSeg).flatten ++ namedTrunc tail := by
  induction pre with
  | nil => simp
  | cons s pre' ih =>
    have hs := h s (List.mem_cons_self s pre')
    simp only [List.cons_append, namedTrunc, hs, Bool.false_eq_true, if_false,
      List.map, List.flatten]
    have hpt : pre'.append tail = pre' ++ tail := rfl
    rw [hpt, ih (fun s' hs' => h s' (List.mem_cons_of_mem _ hs'))]
    simp [List.append_assoc]

theorem namedOfSeg_colon (seg : String)
    (h : jsStartsWith (stripParens seg) ":" = true) :
    namedOfSeg seg = [jsDrop (stripParens seg) 1] := by
  simp [namedOfSeg, h]

theorem namedOfSeg_star (seg : String)
    (h1 : jsStartsWith (stripParens seg) ":" = false)
    (h2 : jsStartsWith (stripParens seg) "*" = true) :
    namedOfSeg seg
      = if jsDrop (stripParens seg) 1 ≠ "" then [jsDrop (stripParens seg) 1] else [] := by
  simp [namedOfSeg, h1, h2]

theorem namedOfSeg_literal (seg : String)
    (h1 : jsStartsWith (stripParens seg) ":" = false)
    (h2 : jsStartsWith (stripParens seg) "*" = false) :
    namedOfSeg seg = [] := by
  simp [namedOfSeg, h1, h2]

theorem isWildSeg_of_colon (seg : String)
    (h : jsStartsWith (stripParens seg) ":" = true) : isWildSeg seg = false := by
  simp [isWildSeg, h]

theorem isWildSeg_of_star (seg : String)
    (h1 : jsStartsWith (stripParens seg) ":" = false)
    (h2 : jsStartsWith (stripParens seg) "*" = true) : isWildSeg seg = true := by
  simp [isWildSeg, h1, h2]

theorem isWildSeg_of_literal (seg : String)
    (h1 : jsStartsWith (stripParens seg) ":" = false)
    (h2 : jsStartsWith (stripParens seg) "*" = false) : isWildSeg seg = false := by
  simp [isWildSeg, h1, h2]

theorem take_succ_of_drop (l : List String) (i : Nat) (seg : String) (rest : List String)
    (h : l.drop i = seg :: rest) : l.take (i + 1) = l.take i ++ [seg] := by
  have hget : l[i]? = some seg := by
    have hd : (l.drop i)[0]? = l[i + 0]? := List.getElem?_drop l i 0
    rw [h] at hd
    simpa using hd.symm
  rw [List.take_succ, hget]
  rfl

theorem drop_succ_of_drop (l : List String) (i : Nat) (seg : String) (rest : List String)
    (h : l.drop i = seg :: rest) : l.drop (i + 1) = rest := by
  have hd : l.drop (i + 1) = (l.drop i).drop 1 := by
    rw [List.drop_drop]
  rw [hd, h]
  rfl


theorem lastSegBlockI_named
    (recI : String → ViewsT → Option (MatchOut × Option (List (List String))))
    (hrec : ∀ pn vs r w, recI pn vs = some (r, w) → r.matched.isSome = true →
      ∃ c, w = some c ∧ ∀ n ∈ namedChain c, n ∈ pKeys r.params)
    (views : ViewsT) (pathParts viewParts : List String) (index : Nat) (st : ScanSt)
    (st' : ScanSt) (m : Option Entry) (w : Option (List (List String)))
    (h : lastSegBlockI recI views pathParts viewParts index st = .done st' m w) :
    (∀ x ∈ pKeys st.params, x ∈ pKeys st'.params)
    ∧ (m.isSome = true → ∃ c, w = some (viewParts :: c)
        ∧ ∀ n ∈ namedChain c, n ∈ pKeys st'.params) := by
  simp only [lastSegBlockI] at h
  split at h
  · split at h
    · cases h
      exact ⟨fun x hx => hx, fun _ => ⟨[], rfl, by simp [namedChain]⟩⟩
    · cases h
  · split at h
    · cases h
      exact ⟨fun x hx => hx, fun _ => ⟨[], rfl, by simp [namedChain]⟩⟩
    · cases h
  · split at h
    · cases h
    · rename_i r w' heqRec
      cases h
      constructor
      · intro x hx
        exact pKeys_spreadMerge_left _ _ x hx
      · intro hm
        rcases hrec _ _ r w' heqRec hm with ⟨c, rfl, hsub⟩
        exact ⟨c, by simp, fun n hn => pKeys_spreadMerge_right _ _ n (hsub n hn)⟩
  · cases h
    exact ⟨fun x hx => hx, fun hm => by simp at hm⟩
  · cases h

theorem scanSegsI_named
    (recI : String → ViewsT → Option (MatchOut × Option (List (List String))))
    (hrec : ∀ pn vs r w, recI pn vs = some (r, w) → r.matched.isSome = true →
      ∃ c, w = some c ∧ ∀ n ∈ namedChain c, n ∈ pKeys r.params)
    (views : ViewsT) (pathParts viewParts : List String) :
    ∀ (rest : List String) (index : Nat) (st : ScanSt),
      viewParts.drop index = rest →
      (∀ s ∈ viewParts.take index, isWildSeg s = false) →
      (∀ n ∈ ((viewParts.take index).map namedOfSeg).flatten, n ∈ pKeys st.params) →
      ∀ st' m w, scanSegsI recI views pathParts viewParts rest index st = .done st' m w →
        m.isSome = true →
        ∃ c, w = some (viewParts :: c)
          ∧ (∀ n ∈ namedTrunc viewParts, n ∈ pKeys st'.params)
          ∧ (∀ n ∈ namedChain c, n ∈ pKeys st'.params) := by
  intro rest
  induction rest with
  | nil =>
    intro index st hinv hnw hpre st' m w h hm
    simp only [scanSegsI] at h
    cases h
  | cons seg rest' ih =>
    intro index st hinv hnw hpre st' m w h hm
    simp only [scanSegsI] at h
    have hvp : (if jsStartsWith seg "(" && jsEndsWith seg ")" then jsDropBoth seg else seg)
        = stripParens seg := rfl
    rw [hvp] at h
    have htake := take_succ_of_drop viewParts index seg rest' hinv
    have hdrop := drop_succ_of_drop viewParts index seg rest' hinv
    have hidxlt : index < viewParts.length := by
      by_contra hge
      rw [List.drop_eq_nil_of_le (Nat.le_of_not_lt hge)] at hinv
      cases hinv
    have hvpeq : viewParts = viewParts.take index ++ (seg :: rest') := by
      conv_lhs => rw [← List.take_append_drop index viewParts]
      rw [hinv]
    split at h
    · rename_i hcol
      split at h
      · rename_i hidx
        refine ih (index + 1) _ hdrop ?_ ?_ st' m w h hm
        · intro s hs
          rw [htake] at hs
          rcases List.mem_append.mp hs with hs1 | hs2
          · exact hnw s hs1
          · rw [List.mem_singleton.mp hs2]
            exact isWildSeg_of_colon seg hcol
        · intro n hn
          rw [htake, List.map_append, List.flatten_append] at hn
          rcases List.mem_append.mp hn with hn1 | hn2
          · exact pKeys_objSet_mono _ _ _ n (hpre n hn1)
          · simp only [List.map, List.flatten, List.append_nil] at hn2
            rw [namedOfSeg_colon seg hcol] at hn2
            rw [List.mem_singleton.mp hn2]
            exact pKeys_objSet_self _ _ _
      · rename_i hidx
        rcases lastSegBlockI_named recI hrec views pathParts viewParts index _ st' m w h with
          ⟨hmono, hchain⟩
        rcases hchain hm with ⟨c, hw, hsub⟩
        have hrest : rest' = [] := by
          have hlen := congrArg List.length hinv
          simp only [List.length_drop, List.length_cons] at hlen
          have hidx' : index = viewParts.length - 1 := by
            by_contra hne
            exact hidx hne
          have hrl : rest'.length = 0 := by omega
          exact List.eq_nil_of_length_eq_zero hrl
        subst hrest
        refine ⟨c, hw, ?_, hsub⟩
        intro n hn
        rw [hvpeq, namedTrunc_append_no_wild _ _ hnw, namedTrunc_singleton] at hn
        rcases List.mem_append.mp hn with hn1 | hn2
        · exact hmono n (pKeys_objSet_mono _ _ _ n (hpre n hn1))
        · rw [namedOfSeg_colon seg hcol] at hn2
          rw [List.mem_singleton.mp hn2]
          exact hmono _ (pKeys_objSet_self _ _ _)
    · rename_i hcol
      have hcolF : jsStartsWith (stripParens seg) ":" = false := by
        simpa using hcol
      split at h
      · rename_i hstar
        cases h
        refine ⟨[], rfl, ?_, by simp [namedChain]⟩
        intro n hn
        rw [hvpeq, namedTrunc_append_no_wild _ _ hnw] at hn
        have hwild : namedTrunc (seg :: rest') = namedOfSeg seg := by
          simp [namedTrunc, isWildSeg_of_star seg hcolF hstar]
        rw [hwild, namedOfSeg_star seg hcolF hstar] at hn
        by_cases hbfl : (jsStartsWith seg "(" && jsEndsWith seg ")") = true
        · simp only [if_pos hbfl]
          by_cases hname : jsDrop (stripParens seg) 1 ≠ ""
          · simp only [if_pos hname]
            rcases List.mem_append.mp hn with hn1 | hn2
            · exact pKeys_objSet_mono _ _ _ n (hpre n hn1)
            · rw [if_pos hname] at hn2
              rw [List.mem_singleton.mp hn2]
              exact pKeys_objSet_self _ _ _
          · simp only [if_neg hname]
            rcases List.mem_append.mp hn with hn1 | hn2
            · exact hpre n hn1
            · rw [if_neg hname] at hn2
              cases hn2
        · simp only [if_neg hbfl]
          by_cases hname : jsDrop (stripParens seg) 1 ≠ ""
          · simp only [if_pos hname]
            rcases List.mem_append.mp hn with hn1 | hn2
            · exact pKeys_objSet_mono _ _ _ n (hpre n hn1)
            · rw [if_pos hname] at hn2
              rw [List.mem_singleton.mp hn2]
              exact pKeys_objSet_self _ _ _
          · simp only [if_neg hname]
            rcases List.mem_append.mp hn with hn1 | hn2
            · exact hpre n hn1
            · rw [if_neg hname] at hn2
              cases hn2
      · rename_i hstar
        have hstarF : jsStartsWith (stripParens seg) "*" = false := by
          simpa using hstar
        split at h
        · cases h
        · rename_i hmis
          split at h
          · rename_i hidx
            refine ih (index + 1) _ hdrop ?_ ?_ st' m w h hm
            · intro s hs
              rw [htake] at hs
              rcases List.mem_append.mp hs with hs1 | hs2
              · exact hnw s hs1
              · rw [List.mem_singleton.mp hs2]
                exact isWildSeg_of_literal seg hcolF hstarF
            · intro n hn
              rw [htake, List.map_append, List.flatten_append] at hn
              rcases List.mem_append.mp hn with hn1 | hn2
              · exact hpre n hn1
              · simp only [List.map, List.flatten, List.append_nil] at hn2
                rw [namedOfSeg_literal seg hcolF hstarF] at hn2
                cases hn2
          · rename_i hidx
            rcases lastSegBlockI_named recI hrec views pathParts viewParts index _ st' m w h with
              ⟨hmono, hchain⟩
            rcases hchain hm with ⟨c, hw, hsub⟩
            have hrest : rest' = [] := by
              have hlen := congrArg List.length hinv
              simp only [List.length_drop, List.length_cons] at hlen
              have hidx' : index = viewParts.length - 1 := by
                by_contra hne
                exact hidx hne
              have hrl : rest'.length = 0 := by omega
              exact List.eq_nil_of_length_eq_zero hrl
            subst hrest
            refine ⟨c, hw, ?_, hsub⟩
            intro n hn
            rw [hvpeq, namedTrunc_append_no_wild _ _ hnw, namedTrunc_singleton] at hn
            rcases List.mem_append.mp hn with hn1 | hn2
            · exact hmono n (hpre n hn1)
            · rw [namedOfSeg_literal seg hcolF hstarF] at hn2
              cases hn2

theorem scanCandsI_named
    (recI : String → ViewsT → Option (MatchOut × Option (List (List String))))
    (hrec : ∀ pn vs r w, recI pn vs = some (r, w) → r.matched.isSome = true →
      ∃ c, w = some c ∧ ∀ n ∈ namedChain c, n ∈ pKeys r.params)
    (views : ViewsT) (pathParts : List String) :
    ∀ (cands : List String) (st : ScanSt) (r : MatchOut) (w : Option (List (List String))),
      scanCandsI recI views pathParts cands st = some (r, w) →
      r.matched.isSome = true →
      ∃ c, w = some c ∧ ∀ n ∈ namedChain c, n ∈ pKeys r.params := by
  intro cands
  induction cands with
  | nil =>
    intro st r w h hm
    simp only [scanCandsI] at h
    cases h
    simp at hm
  | cons view restViews ih =>
    intro st r w h hm
    simp only [scanCandsI] at h
    split at h
    · exact ih _ r w h hm
    · rename_i st' m w' heq
      cases h
      rcases scanSegsI_named recI hrec views pathParts _ _ 0 st rfl
          (by intro s hs; simp at hs) (by intro n hn; simp at hn) st' m w heq hm with
        ⟨c, hw, htrunc, hchain⟩
      subst hw
      refine ⟨_, rfl, ?_⟩
      intro n hn
      simp only [namedChain, List.map_cons, List.flatten_cons] at hn
      rcases List.mem_append.mp hn with hn1 | hn2
      · exact htrunc n hn1
      · exact hchain n hn2
    · cases h

theorem matchViewIF_named :
    ∀ (fuel : Nat) (pn : String) (vs : ViewsT) (r : MatchOut)
      (w : Option (List (List String))),
      matchViewIF fuel pn vs = some (r, w) → r.matched.isSome = true →
      ∃ c, w = some c ∧ ∀ n ∈ namedChain c, n ∈ pKeys r.params := by
  intro fuel
  induction fuel with
  | zero =>
    intro pn vs r w h hm
    simp only [matchViewIF] at h
    cases h
  | succ fuel ih =>
    intro pn vs r w h hm
    simp only [matchViewIF] at h
    exact scanCandsI_named (matchViewIF fuel) ih vs _ _ _ r w h hm

/-- C2: For every pathname and table, `matchView` agrees with the instrumented
matcher, and whenever the instrumented matcher reports a winner it returns a
chain of winning pattern keys such that every named `:`/`*` segment of that
chain (cut at the first wildcard, where the scan stops) appears as a key of the
returned `params`. The containment direction of the claim holds; the
"no extraneous keys" direction is refuted separately: bindings from rejected
sibling candidates survive into the result. -/
theorem matchView_winning_named_params :
    (∀ (pathname : String) (views : ViewsT),
        matchView pathname views = (matchViewI pathname views).map Prod.fst)
    ∧ (∀ (fuel : Nat) (pathname : String) (views : ViewsT) (r : MatchOut)
          (w : Option (List (List String))),
        matchViewIF fuel pathname views = some (r, w) → r.matched.isSome = true →
        ∃ chain, w = some chain ∧ ∀ n ∈ namedChain chain, n ∈ pKeys r.params) := by
  constructor
  · intro pathname views
    exact matchViewF_erase (viewsFuelL views + 1) pathname views
  · exact matchViewIF_named

theorem matchView_winning_named_params_witness :
    ∃ chain, (some [[":y", "b"]] : Option (List (List String))) = some chain
      ∧ ∀ n ∈ namedChain chain,
          n ∈ pKeys [("x", some "p"), ("y", some "p")] :=
  matchView_winning_named_params.2 1 "/p/b"
    [("/:x/a", Entry.comp compX), ("/:y/b", Entry.comp compY)]
    { matched := some (Entry.comp compY), layouts := [], hooks := [],
      params := [("x", some "p"), ("y", some "p")], breakFromLayouts := false }
    (some [[":y", "b"]]) rfl rfl

theorem matchView_extraneous_key_counterexample :
    (matchView "/p/b" [("/:x/a", Entry.comp compX), ("/:y/b", Entry.comp compY)]).map
        (fun r => r.params) = some [("x", some "p"), ("y", some "p")]
    ∧ (matchViewI "/p/b" [("/:x/a", Entry.comp compX), ("/:y/b", Entry.comp compY)]).map
        Prod.snd = some (some [[":y", "b"]])
    ∧ namedChain [[":y", "b"]] = ["y"]
    ∧ "x" ∉ namedChain [[":y", "b"]] := by
  refine ⟨rfl, rfl, rfl, ?_⟩
  decide

end SView
